import Mathlib

/-
Verification development for the DXF drawing analyzer
(Analisador_DXF_Engenharia-V22.py).

Shallow embedding conventions:
* Coordinates are exact rationals; sub-micron floating-point noise of CAD
  export is abstracted away.  Python `round` is round-half-to-even
  (banker's rounding); we model it exactly on rationals (`bankRound`).
* Python float infinities and nan, which arise in the bounding-box code
  from the `float('inf')` initial accumulators, are modelled by `PFloat`.
* Exceptions are modelled by `Except Err`; a Python `try/except` catching
  a failure and downgrading it to a result is a `match` on the `Except`.
* A DXF entity attribute that may be absent (a malformed entity) is an
  `Option`; accessing a missing attribute raises (returns `.error`),
  mirroring Python's `AttributeError`.
* `ezdxf` is an external library.  Its `Insert.virtual_entities` is
  modelled from the spec (see `virtualOf`).
-/

abbrev Err := String

attribute [local semireducible] Rat.add Rat.sub Rat.mul Rat.inv Rat.ofScientific

/-- A 3D point (ezdxf `Vec3`) with exact rational coordinates. -/
structure Point3 where
  x : ℚ
  y : ℚ
  z : ℚ
deriving DecidableEq, Repr, Inhabited

/-- Python `round` with no digits: round half to even (banker's rounding). -/
def bankRound (q : ℚ) : ℤ :=
  let f := ⌊q⌋
  let r := q - f
  if r < 1/2 then f
  else if 1/2 < r then f + 1
  else if f % 2 = 0 then f else f + 1

/-- A Python float value as produced by the bounding-box arithmetic:
either a finite rational, an infinity, or nan. -/
inductive PFloat where
  | fin (q : ℚ)
  | pinf
  | ninf
  | nan
deriving DecidableEq, Repr

instance : Inhabited PFloat := ⟨.fin 0⟩

/-- Python float addition on `PFloat` (`inf + -inf = nan`). -/
def padd : PFloat → PFloat → PFloat
  | .nan, _ => .nan
  | _, .nan => .nan
  | .fin a, .fin b => .fin (a + b)
  | .fin _, .pinf => .pinf
  | .fin _, .ninf => .ninf
  | .pinf, .fin _ => .pinf
  | .ninf, .fin _ => .ninf
  | .pinf, .pinf => .pinf
  | .ninf, .ninf => .ninf
  | .pinf, .ninf => .nan
  | .ninf, .pinf => .nan

/-- Python float negation on `PFloat`. -/
def pneg : PFloat → PFloat
  | .fin a => .fin (-a)
  | .pinf => .ninf
  | .ninf => .pinf
  | .nan => .nan

/-- Python float subtraction on `PFloat`. -/
def psub (a b : PFloat) : PFloat := padd a (pneg b)

/-- Python float division by 2 on `PFloat`. -/
def pdiv2 : PFloat → PFloat
  | .fin a => .fin (a / 2)
  | .pinf => .pinf
  | .ninf => .ninf
  | .nan => .nan

/-- Python float absolute value on `PFloat`. -/
def pabs : PFloat → PFloat
  | .fin a => .fin |a|
  | .pinf => .pinf
  | .ninf => .pinf
  | .nan => .nan

/-- Python float strict comparison on `PFloat`: any comparison with nan
is false. -/
def plt : PFloat → PFloat → Bool
  | .nan, _ => false
  | _, .nan => false
  | .fin a, .fin b => decide (a < b)
  | .fin _, .pinf => true
  | .fin _, .ninf => false
  | .ninf, .fin _ => true
  | .pinf, .fin _ => false
  | .ninf, .pinf => true
  | .pinf, .ninf => false
  | .pinf, .pinf => false
  | .ninf, .ninf => false

/-- Python `min(a, b)`: `b` if `b < a` else `a`. -/
def pymin (a b : PFloat) : PFloat := if plt b a then b else a

/-- Python `max(a, b)`: `b` if `a < b` else `a`. -/
def pymax (a b : PFloat) : PFloat := if plt a b then b else a

/-- DXF entity kind tag for non-INSERT entities. -/
inductive EKind where
  | line
  | circle
  | lwpolyline
  | polyline
  | arc
  | spline
  | ellipse
  | other (tag : String)
deriving DecidableEq, Repr, Inhabited

/-- A non-INSERT DXF entity.  Geometric attributes are `Option`s:
`none` models a malformed entity whose attribute access raises. -/
structure GEnt where
  eid : Nat := 0
  kind : EKind := .other ""
  layer : String := "0"
  start : Option Point3 := none
  stop : Option Point3 := none
  center : Option Point3 := none
  radius : Option ℚ := none
  pts : Option (List (ℚ × ℚ)) := none
  flat : Option (List (ℚ × ℚ)) := none
  closed : Bool := false
deriving DecidableEq, Repr, Inhabited

mutual
/-- A DXF entity: a geometric entity or an INSERT (block reference)
whose block content is carried as the already-transformed entities that
`virtual_entities` would yield; `vfail` marks a reference whose
resolution raises. -/
inductive Entity where
  | geo (g : GEnt)
  | insert (eid : Nat) (layer : String) (vfail : Bool) (content : EntList)
/-- A list of entities (the content of a block), kept as a separate
inductive so that recursion over the nesting structure is structural. -/
inductive EntList where
  | nil
  | cons (e : Entity) (rest : EntList)
end

instance : Inhabited Entity := ⟨.geo default⟩

/-- Build an `EntList` from a `List Entity`. -/
def elist : List Entity → EntList
  | [] => .nil
  | e :: r => .cons e (elist r)

def Entity.eid : Entity → Nat
  | .geo g => g.eid
  | .insert i _ _ _ => i

def Entity.layerOf : Entity → String
  | .geo g => g.layer
  | .insert _ l _ _ => l

/-- The `dxftype()` string of an entity. -/
def Entity.tagName : Entity → String
  | .geo g =>
      match g.kind with
      | .line => "LINE"
      | .circle => "CIRCLE"
      | .lwpolyline => "LWPOLYLINE"
      | .polyline => "POLYLINE"
      | .arc => "ARC"
      | .spline => "SPLINE"
      | .ellipse => "ELLIPSE"
      | .other t => t
  | .insert _ _ _ _ => "INSERT"

/-- `e.dxftype() == 'LINE'`. -/
def isLineE : Entity → Bool
  | .geo g => g.kind == .line
  | .insert _ _ _ _ => false

/-- `e.dxftype() == 'CIRCLE'`. -/
def isCircleE : Entity → Bool
  | .geo g => g.kind == .circle
  | .insert _ _ _ _ => false

/-- `e.dxftype() == 'LWPOLYLINE'`. -/
def isLwE : Entity → Bool
  | .geo g => g.kind == .lwpolyline
  | .insert _ _ _ _ => false

/-- `e.dxftype() == 'POLYLINE'`. -/
def isPolyE : Entity → Bool
  | .geo g => g.kind == .polyline
  | .insert _ _ _ _ => false

/-- `e.dxftype() in ('ARC', 'SPLINE', 'ELLIPSE')`. -/
def isCurveE : Entity → Bool
  | .geo g => g.kind == .arc || g.kind == .spline || g.kind == .ellipse
  | .insert _ _ _ _ => false

/-- `e.dxftype() == 'INSERT'`. -/
def isInsertE : Entity → Bool
  | .geo _ => false
  | .insert _ _ _ _ => true

/-- Access `entity.dxf.start` and `entity.dxf.end` of a LINE; raises
on a missing attribute or a non-line entity. -/
def lineEndpoints : Entity → Except Err (Point3 × Point3)
  | .geo g =>
      match g.start, g.stop with
      | some s, some t => .ok (s, t)
      | _, _ => .error "AttributeError: start or end"
  | .insert _ _ _ _ => .error "AttributeError: start or end"

/-- Access `entity.dxf.center`; raises when absent. -/
def getCenter : Entity → Except Err Point3
  | .geo g =>
      match g.center with
      | some c => .ok c
      | none => .error "AttributeError: center"
  | .insert _ _ _ _ => .error "AttributeError: center"

/-- Access `entity.dxf.radius`; raises when absent. -/
def getRadius : Entity → Except Err ℚ
  | .geo g =>
      match g.radius with
      | some r => .ok r
      | none => .error "AttributeError: radius"
  | .insert _ _ _ _ => .error "AttributeError: radius"

/-- Access `entity.get_points('xy')`; raises when absent. -/
def getPts : Entity → Except Err (List (ℚ × ℚ))
  | .geo g =>
      match g.pts with
      | some l => .ok l
      | none => .error "AttributeError: points"
  | .insert _ _ _ _ => .error "AttributeError: points"

/-- Access `entity.flattening(distance=0.1)`; raises when absent. -/
def getFlat : Entity → Except Err (List (ℚ × ℚ))
  | .geo g =>
      match g.flat with
      | some l => .ok l
      | none => .error "AttributeError: flattening"
  | .insert _ _ _ _ => .error "AttributeError: flattening"

/-- Whether an `Except` result is a success. -/
def exOk {α : Type} : Except Err α → Bool
  | .ok _ => true
  | .error _ => false

mutual
/-- Modelled from the spec: ezdxf `Insert.virtual_entities` (the code of
the external ezdxf library is not part of this repository).  Per the
spec, a block reference is resolved into copies of the block's entities
with the transform applied, recursively to arbitrary nesting depth; a
failing resolution raises.  The transformed copies are the `content`
carried by the `insert` constructor; on a plain entity this is the
identity resolution. -/
def virtualOf : Entity → Except Err (List Entity)
  | .geo g => .ok [.geo g]
  | .insert _ _ vfail content =>
      if vfail then .error "virtual entities failure" else expandL content
/-- Recursive resolution of a block's content list. -/
def expandL : EntList → Except Err (List Entity)
  | .nil => .ok []
  | .cons e rest => do
      let c ← virtualOf e
      let r ← expandL rest
      .ok (c ++ r)
end

/-- One iteration of the `get_flattend_entities` loop: an INSERT is
replaced by its virtual entities, falling back to the INSERT itself when
resolution raises; any other entity is kept. -/
def flattenOne (e : Entity) : List Entity :=
  match e with
  | .insert i lay vfail content =>
      match virtualOf (.insert i lay vfail content) with
      | .ok vs => vs
      | .error _ => [.insert i lay vfail content]
  | .geo g => [.geo g]

def flattenAll : List Entity → List Entity
  | [] => []
  | e :: rest => flattenOne e ++ flattenAll rest

/-- `get_flattend_entities(msp)`: the flat entity list of a model space
(`None` yields the empty list). -/
def get_flattend_entities : Option (List Entity) → List Entity
  | none => []
  | some msp => flattenAll msp

/-- Result status of a check: `'OK'`, `'ALERTA'`, `'ERRO'`, or
`'FURO SEM SIMETRIA'`. -/
inductive Status where
  | ok
  | alerta
  | erro
  | furoSemSimetria
deriving DecidableEq, Repr

/-- The heterogeneous `data` field of a check result. -/
inductive CheckData where
  | null
  | entities (es : List Entity)
  | points (ps : List Point3)
  | counts (cs : List (String × Nat))
  | names (ns : List String)

/-- A check result dictionary `{'status': ..., 'details': ..., 'data': ...}`. -/
structure CheckResult where
  status : Status
  details : String
  data : CheckData

/-- The entity list carried by a result's `data`, if any. -/
def CheckResult.entData (r : CheckResult) : List Entity :=
  match r.data with
  | .entities es => es
  | _ => []

/-- The point list carried by a result's `data`, if any. -/
def CheckResult.ptData (r : CheckResult) : List Point3 :=
  match r.data with
  | .points ps => ps
  | _ => []

/-- The ids of the entities carried by a result's `data`. -/
def CheckResult.dataIds (r : CheckResult) : List Nat :=
  r.entData.map Entity.eid

/-- A loaded drawing document: its model space entities and its layer
table (layer names). -/
structure Doc where
  msp : List Entity
  layers : List String

/-- `TOLERANCIA_GEOMETRIA = 1e-4`. -/
def TOLERANCIA_GEOMETRIA : ℚ := 1/10000

/-- One step of building a `Counter` keyed by `dxftype`, keeping
first-insertion order. -/
def bump : List (String × Nat) → String → List (String × Nat)
  | [], t => [(t, 1)]
  | (s, n) :: r, t => if s == t then (s, n + 1) :: r else (s, n) :: bump r t

/-- The `Counter(entity.dxftype() for ...)` mapping in insertion order. -/
def countTags (es : List Entity) : List (String × Nat) :=
  es.foldl (fun acc e => bump acc e.tagName) []

/-- `summarize_entities(msp)`: counts entity kinds over the flattened
set; `ALERTA` when the drawing has no elements.  (Its body cannot raise,
so the source's `try/except` wrapper is the identity here.) -/
def summarize_entities (msp : Option (List Entity)) : CheckResult :=
  let all_entities := get_flattend_entities msp
  let entity_counts := countTags all_entities
  if entity_counts.isEmpty then
    ⟨.alerta, "O desenho não possui elementos.", .null⟩
  else
    ⟨.ok, "A peça é composta por elementos.", .counts entity_counts⟩

/-- `analyze_layers(doc, msp)`: reports layers, other than `0` and
`defpoints` (case-insensitive), that no model-space entity references.
(Its body cannot raise, so the `try/except` wrapper is the identity.) -/
def analyze_layers (doc : Doc) : CheckResult :=
  let empty_layers := doc.layers.filter (fun name =>
    !(name.toLower == "0" || name.toLower == "defpoints") &&
    (doc.msp.filter (fun e => e.layerOf == name)).isEmpty)
  if !empty_layers.isEmpty then
    ⟨.alerta, "Encontradas camadas vazias.", .names empty_layers⟩
  else
    ⟨.ok, "Nenhuma camada vazia encontrada.", .null⟩

/-- Python `round(c, precision)`. -/
def roundc (precision : ℕ) (c : ℚ) : ℚ :=
  (bankRound (c * 10 ^ precision) : ℚ) / 10 ^ precision

/-- Round the three coordinates of a point:
`tuple(round(c, precision) for c in p)`. -/
def roundPt (precision : ℕ) (p : Point3) : ℚ × ℚ × ℚ :=
  (roundc precision p.x, roundc precision p.y, roundc precision p.z)

/-- Lexicographic order on coordinate triples, as Python compares
3-tuples. -/
def tupLe (a b : ℚ × ℚ × ℚ) : Bool :=
  if a.1 < b.1 then true
  else if b.1 < a.1 then false
  else if a.2.1 < b.2.1 then true
  else if b.2.1 < a.2.1 then false
  else decide (a.2.2 ≤ b.2.2)

/-- `tuple(sorted((p, q)))`. -/
def sortPair (a b : ℚ × ℚ × ℚ) : (ℚ × ℚ × ℚ) × (ℚ × ℚ × ℚ) :=
  if tupLe a b then (a, b) else (b, a)

/-- The duplicate-detection signature of a line: rounded endpoints in
canonical order; raises when an endpoint attribute is missing. -/
def sigOf (precision : ℕ) (e : Entity) : Except Err ((ℚ × ℚ × ℚ) × (ℚ × ℚ × ℚ)) :=
  match lineEndpoints e with
  | .error er => .error er
  | .ok (s, t) => .ok (sortPair (roundPt precision s) (roundPt precision t))

/-- Membership in a Python `set` of entities (by object identity,
modelled by `eid`). -/
def hasId (acc : List Entity) (i : ℕ) : Bool :=
  acc.any (fun x => x.eid == i)

/-- `set.add`: insert an entity unless an entity with its identity is
already present. -/
def addEnt (acc : List Entity) (e : Entity) : List Entity :=
  if hasId acc e.eid then acc else acc ++ [e]

/-- The inner loop of `find_duplicate_lines`: compare `l1` against each
later line, adding both to the duplicate set on a signature match. -/
def dupInner (precision : ℕ) (l1 : Entity) : List Entity → List Entity → Except Err (List Entity)
  | [], acc => .ok acc
  | l2 :: rs, acc =>
    match sigOf precision l1, sigOf precision l2 with
    | .error er, _ => .error er
    | .ok _, .error er => .error er
    | .ok s1, .ok s2 =>
        dupInner precision l1 rs (if s1 = s2 then addEnt (addEnt acc l1) l2 else acc)

/-- The outer loop of `find_duplicate_lines` over all ordered pairs. -/
def dupOuter (precision : ℕ) : List Entity → List Entity → Except Err (List Entity)
  | [], acc => .ok acc
  | l1 :: rest, acc =>
    match dupInner precision l1 rest acc with
    | .error er => .error er
    | .ok acc2 => dupOuter precision rest acc2

/-- `find_duplicate_lines(msp, precision=4)`: pairwise signature scan of
all flattened LINE entities; any internal failure is downgraded to an
`ERRO` result by the `try/except`. -/
def find_duplicate_lines (msp : Option (List Entity)) (precision : ℕ := 4) : CheckResult :=
  let all_entities := get_flattend_entities msp
  let lines := all_entities.filter isLineE
  match dupOuter precision lines [] with
  | .error er => ⟨.erro, "Falha na análise de duplicatas: " ++ er, .null⟩
  | .ok dups =>
      if !dups.isEmpty then
        ⟨.erro, "Linha(s) envolvida(s) em duplicação.", .entities dups⟩
      else
        ⟨.ok, "Nenhuma linha sobreposta encontrada.", .null⟩

/-- `normalize_point(p)`: quantize the planar coordinates onto the
tolerance grid, `tuple(round(coord / tolerance) for coord in p[:2])`. -/
def normalize_point (tolerance : ℚ) (p : Point3) : ℤ × ℤ :=
  (bankRound (p.x / tolerance), bankRound (p.y / tolerance))

/-- `all_points[key] = value` (Python dict write; later writes win on
lookup). -/
def dictInsert (ap : List ((ℤ × ℤ) × Point3)) (k : ℤ × ℤ) (v : Point3) : List ((ℤ × ℤ) × Point3) :=
  (k, v) :: ap

/-- `all_points[key]` (latest write wins). -/
def dictGet (ap : List ((ℤ × ℤ) × Point3)) (k : ℤ × ℤ) : Option Point3 :=
  match ap with
  | [] => none
  | (k2, v) :: r => if k2 == k then some v else dictGet r k

/-- The endpoint-collection loop of `check_closed_geometry`: LINE
entities contribute their two normalized endpoints to `endpoints` and
their original coordinates to `all_points`. -/
def cgLoop (tolerance : ℚ) : List Entity → List (ℤ × ℤ) → List ((ℤ × ℤ) × Point3) →
    Except Err (List (ℤ × ℤ) × List ((ℤ × ℤ) × Point3))
  | [], eps, ap => .ok (eps, ap)
  | e :: rest, eps, ap =>
    if isLineE e then
      match lineEndpoints e with
      | .error er => .error er
      | .ok (s, t) =>
          cgLoop tolerance rest
            (eps ++ [normalize_point tolerance s, normalize_point tolerance t])
            (dictInsert (dictInsert ap (normalize_point tolerance s) s) (normalize_point tolerance t) t)
    else cgLoop tolerance rest eps ap

/-- The multiplicity of a key in the endpoint list (a `Counter`
entry). -/
def cnt (k : ℤ × ℤ) : List (ℤ × ℤ) → ℕ
  | [] => 0
  | x :: r => (if x = k then 1 else 0) + cnt k r

/-- First-occurrence deduplication (the key order of a `Counter`). -/
def firstDedup : List (ℤ × ℤ) → List (ℤ × ℤ)
  | [] => []
  | k :: rest => k :: (firstDedup rest).filter (fun x => x ≠ k)

/-- The normalized keys of odd multiplicity, in first-occurrence order
(the iteration order of a Python `set` is unspecified; we fix this
order — all claims are order-insensitive). -/
def oddKeysOf (eps : List (ℤ × ℤ)) : List (ℤ × ℤ) :=
  (firstDedup eps).filter (fun k => cnt k eps % 2 = 1)

/-- `check_closed_geometry(msp, tolerance)`: endpoint-parity check of
the flattened LINE entities; `ALERTA` when the flattened set contains
neither LINE nor LWPOLYLINE entities; internal failures downgrade to an
`ERRO` result. -/
def check_closed_geometry (msp : Option (List Entity)) (tolerance : ℚ) : CheckResult :=
  let all_entities := get_flattend_entities msp
  let entities_to_check := all_entities.filter (fun e => isLineE e || isLwE e)
  if entities_to_check.isEmpty then
    ⟨.alerta, "Nenhum contorno para analisar.", .null⟩
  else
    match cgLoop tolerance entities_to_check [] [] with
    | .error er => ⟨.erro, "Falha: " ++ er, .null⟩
    | .ok (endpoints, all_points) =>
        let open_normalized_points := oddKeysOf endpoints
        if !open_normalized_points.isEmpty then
          ⟨.erro, "Contorno aberto! Pontos soltos.",
            .points (open_normalized_points.map (fun k => (dictGet all_points k).getD default))⟩
        else
          ⟨.ok, "O contorno da peça está fechado.", .null⟩

/-- The representative points of one entity for the manual bounding box
(`_calculate_manual_bbox` body): sampled curve points, line endpoints,
polyline vertices, or circle corner points; `none` for unrecognized
kinds (`continue` without touching `has_data`). -/
def entityBBoxPoints (e : Entity) : Except Err (Option (List (ℚ × ℚ))) :=
  if isCurveE e then
    match getFlat e with
    | .error er => .error er
    | .ok f => .ok (some f)
  else if isLineE e then
    match lineEndpoints e with
    | .error er => .error er
    | .ok (s, t) => .ok (some [(s.x, s.y), (t.x, t.y)])
  else if isLwE e || isPolyE e then
    match getPts e with
    | .error er => .error er
    | .ok l => .ok (some l)
  else if isCircleE e then
    match getCenter e with
    | .error er => .error er
    | .ok c =>
        match getRadius e with
        | .error er => .error er
        | .ok r => .ok (some [(c.x - r, c.y - r), (c.x + r, c.y + r)])
  else .ok none

/-- The accumulator of `_calculate_manual_bbox`: the four running
extrema (initialized to the float infinities) and the `has_data` flag. -/
structure BState where
  minx : PFloat
  maxx : PFloat
  miny : PFloat
  maxy : PFloat
  hasData : Bool

/-- Fold one entity into the bounding-box accumulator; a raising entity
is skipped (`except (AttributeError, TypeError, IndexError): continue`). -/
def bboxFold (st : BState) (e : Entity) : BState :=
  match entityBBoxPoints e with
  | .error _ => st
  | .ok none => st
  | .ok (some pts) =>
      pts.foldl
        (fun st2 p =>
          { st2 with
            minx := pymin st2.minx (.fin p.1)
            maxx := pymax st2.maxx (.fin p.1)
            miny := pymin st2.miny (.fin p.2)
            maxy := pymax st2.maxy (.fin p.2) })
        { st with hasData := true }

/-- `_calculate_manual_bbox(msp)`: `None` when the flattened set is
empty or no entity produced its point list; otherwise the four extrema
(possibly the degenerate infinities when every produced point list was
empty). -/
def calculate_manual_bbox (msp : Option (List Entity)) : Option (PFloat × PFloat × PFloat × PFloat) :=
  let all_entities := get_flattend_entities msp
  if all_entities.isEmpty then none
  else
    let st := all_entities.foldl bboxFold ⟨.pinf, .ninf, .pinf, .ninf, false⟩
    if st.hasData then some (st.minx, st.maxx, st.miny, st.maxy) else none

/-- The `{'width', 'height', 'extents'}` dictionary of
`_get_geometric_properties`. -/
structure GeoProps where
  width : PFloat
  height : PFloat
  extents : Option (PFloat × PFloat × PFloat × PFloat)

/-- `_get_geometric_properties(msp)`. -/
def get_geometric_properties (msp : Option (List Entity)) : GeoProps :=
  match calculate_manual_bbox msp with
  | none => ⟨.fin 0, .fin 0, none⟩
  | some (mnx, mxx, mny, mxy) => ⟨psub mxx mnx, psub mxy mny, some (mnx, mxx, mny, mxy)⟩

/-- One entry of `relative_positions`:
`{'pos': (rel_x, rel_y), 'entity': hole, 'matched': False}`. -/
structure RelPos where
  px : PFloat
  py : PFloat
  ent : Entity
  matched : Bool

instance : Inhabited RelPos := ⟨⟨.fin 0, .fin 0, default, false⟩⟩

/-- `is_symmetric_pair`: the two relative positions are negations of
each other within the tolerance on each axis. -/
def sympair (tolerance : ℚ) (p q : RelPos) : Bool :=
  plt (pabs (padd p.px q.px)) (.fin tolerance) && plt (pabs (padd p.py q.py)) (.fin tolerance)

/-- `is_at_center`: the relative position is within the tolerance of the
origin on each axis. -/
def atCenter (tolerance : ℚ) (p : RelPos) : Bool :=
  plt (pabs p.px) (.fin tolerance) && plt (pabs p.py) (.fin tolerance)

/-- The inner scan of the greedy pairing pass: the first index `j`
(from 0) with `j != i`, not yet matched, forming a symmetric pair with
`p1`. -/
def findPartnerAux (tolerance : ℚ) (p1 : RelPos) (i : ℕ) : List RelPos → ℕ → Option ℕ
  | [], _ => none
  | p2 :: rest, j =>
    if j != i && !p2.matched && sympair tolerance p1 p2 then some j
    else findPartnerAux tolerance p1 i rest (j + 1)

/-- Set the `matched` flag of the `k`-th relative position. -/
def setMatched : List RelPos → ℕ → List RelPos
  | [], _ => []
  | p :: rest, 0 => { p with matched := true } :: rest
  | p :: rest, k + 1 => p :: setMatched rest k

/-- One outer iteration of the greedy pairing pass at index `i`. -/
def symStep (tolerance : ℚ) (i : ℕ) : List RelPos × List Entity → List RelPos × List Entity
  | (ps, asym) =>
    let p1 := ps.getD i default
    if p1.matched then (ps, asym)
    else
      match findPartnerAux tolerance p1 i ps 0 with
      | some j => (setMatched (setMatched ps i) j, asym)
      | none => if atCenter tolerance p1 then (ps, asym) else (ps, asym ++ [p1.ent])

/-- The outer loop of the greedy pairing pass over the index list. -/
def symFold (tolerance : ℚ) : List ℕ → List RelPos × List Entity → List RelPos × List Entity
  | [], st => st
  | i :: rest, st => symFold tolerance rest (symStep tolerance i st)

/-- Build `relative_positions` from the holes; raises on a circle with a
missing center attribute. -/
def buildRel (cx cy : PFloat) : List Entity → Except Err (List RelPos)
  | [] => .ok []
  | h :: t =>
    match getCenter h with
    | .error er => .error er
    | .ok c =>
        match buildRel cx cy t with
        | .error er => .error er
        | .ok rest => .ok (⟨psub (.fin c.x) cx, psub (.fin c.y) cy, h, false⟩ :: rest)

/-- `check_hole_symmetry(msp, tolerance=1e-2)`.  Unlike the other four
checks, its body is not wrapped in a `try/except`, so it returns an
`Except`: an internal failure (e.g. a circle without a center) raises
out of the function. -/
def check_hole_symmetry (msp : Option (List Entity)) (tolerance : ℚ := 1/100) : Except Err CheckResult :=
  let all_entities := get_flattend_entities msp
  let holes := all_entities.filter isCircleE
  if holes.length < 2 then
    .ok ⟨.ok, "Não há furos suficientes para análise de simetria.", .null⟩
  else
    match calculate_manual_bbox msp with
    | none => .ok ⟨.alerta, "Não foi possível determinar o centro da peça.", .null⟩
    | some (min_x, max_x, min_y, max_y) =>
        let center_x := pdiv2 (padd min_x max_x)
        let center_y := pdiv2 (padd min_y max_y)
        match buildRel center_x center_y holes with
        | .error er => .error er
        | .ok relative_positions =>
            let res := symFold tolerance (List.range relative_positions.length) (relative_positions, [])
            if res.2.isEmpty then
              .ok ⟨.ok, "A furação da peça é simétrica.", .null⟩
            else
              .ok ⟨.furoSemSimetria, "Furo(s) quebra(m) a simetria.", .entities res.2⟩

/-- `check_drawing(filepath)` after a successful load: runs the five
checks in order; the four wrapped checks cannot raise, while an
exception from `check_hole_symmetry` propagates. -/
def check_drawing (doc : Doc) : Except Err (List (String × CheckResult)) := do
  let r1 := summarize_entities (some doc.msp)
  let r2 := analyze_layers doc
  let r3 := find_duplicate_lines (some doc.msp) 4
  let r4 := check_closed_geometry (some doc.msp) TOLERANCIA_GEOMETRIA
  let r5 ← check_hole_symmetry (some doc.msp) (1/100)
  pure [ ("Composição do Desenho", r1), ("Análise de Camadas", r2),
         ("Linhas Sobrepostas", r3), ("Verificação de Contorno", r4),
         ("Verificação de Furos", r5) ]

/-- Modelled from the spec: ezdxf `Vec3.isclose` (external library),
"within tolerance of the path's current terminal point" — `math.isclose`
per component with `rel_tol=1e-9`, `abs_tol=1e-12`. -/
def qclose (a b : ℚ) : Bool :=
  decide (|a - b| ≤ max ((1/1000000000) * max |a| |b|) (1/1000000000000))

/-- Componentwise closeness of two points. -/
def pclose (p q : Point3) : Bool :=
  qclose p.x q.x && qclose p.y q.y && qclose p.z q.z

/-- The candidate scan of the path-reconstruction loop: the first
remaining line one of whose endpoints is close to the terminal point;
returns the opposite endpoint and the pool with that line removed.
Accessing a malformed candidate raises. -/
def findNext (lastPt : Point3) : List Entity → Except Err (Option (Point3 × List Entity))
  | [] => .ok none
  | l :: rest =>
    match lineEndpoints l with
    | .error er => .error er
    | .ok (s, t) =>
        if pclose lastPt s then .ok (some (t, rest))
        else if pclose lastPt t then .ok (some (s, rest))
        else
          match findNext lastPt rest with
          | .error er => .error er
          | .ok none => .ok none
          | .ok (some (p, rest2)) => .ok (some (p, l :: rest2))

/-- The bounded path-reconstruction loop
(`for _ in range(len(remaining_lines) * 2)`), breaking when no candidate
continues the path. -/
def pathLoop : ℕ → List Point3 → List Entity → Except Err (List Point3 × List Entity)
  | 0, pts, rem => .ok (pts, rem)
  | fuel + 1, pts, rem =>
    match findNext (pts.getLastD default) rem with
    | .error er => .error er
    | .ok none => .ok (pts, rem)
    | .ok (some (p, rem2)) => pathLoop fuel (pts ++ [p]) rem2

/-- The closed LWPOLYLINE added by the repair
(`msp.add_lwpolyline(path_points, close=True)`). -/
def mkLwEnt (pathPts : List Point3) : Entity :=
  .geo { eid := 0, kind := .lwpolyline, pts := some (pathPts.map (fun p => (p.x, p.y))), closed := true }

/-- The document-mutation core of `fix_open_contour`: build the stitched
path, delete the model-space LINE entities (only the top-level ones, not
the virtual ones inside blocks), and append one closed LWPOLYLINE.
`none` when there is no line to join (early return) or when an internal
failure raises (the outer `try/except` aborts without saving). -/
def fix_open_contour (msp : List Entity) : Option (List Entity × List Point3) :=
  let all_entities := get_flattend_entities (some msp)
  let lines := all_entities.filter isLineE
  match lines with
  | [] => none
  | l0 :: remaining_lines =>
    match lineEndpoints l0 with
    | .error _ => none
    | .ok (s, t) =>
        match pathLoop (remaining_lines.length * 2) [s, t] remaining_lines with
        | .error _ => none
        | .ok (path_points, _) =>
            some (msp.filter (fun e => !isLineE e) ++ [mkLwEnt path_points], path_points)

/-- The model space produced by a successful repair run. -/
def fixResultMsp (msp : List Entity) : List Entity :=
  match fix_open_contour msp with
  | some (m, _) => m
  | none => []

/-- The accumulated path points of a successful repair run. -/
def fixResultPts (msp : List Entity) : List Point3 :=
  match fix_open_contour msp with
  | some (_, pts) => pts
  | none => []

/-- The stored file name of a drawing. -/
def dxfName (stem : String) : String := stem ++ ".dxf"

/-- `filepath.with_name(f"{filepath.stem}_corrigido.dxf")`. -/
def fixedName (stem : String) : String := stem ++ "_corrigido.dxf"

/-- A file store: persisted model spaces by file name. -/
abbrev FileStore := List (String × List Entity)

/-- Read a persisted document. -/
def storeGet (st : FileStore) (n : String) : Option (List Entity) :=
  match st with
  | [] => none
  | (m, d) :: r => if m == n then some d else storeGet r n

/-- `doc.saveas(path)`: persist under a (possibly new) name. -/
def storeSet (st : FileStore) (n : String) (d : List Entity) : FileStore :=
  (n, d) :: st

/-- A full `fix_open_contour` run against the file store: load the
document, repair it, and save the result under the derived new name;
on an early return or a raise nothing is persisted. -/
def run_fix_open_contour (st : FileStore) (stem : String) : FileStore :=
  match storeGet st (dxfName stem) with
  | none => st
  | some msp =>
    match fix_open_contour msp with
    | none => st
    | some (newMsp, _) => storeSet st (fixedName stem) newMsp

/-- A well-formed LINE entity. -/
def mkLine (i : Nat) (s t : Point3) : Entity :=
  .geo { eid := i, kind := .line, start := some s, stop := some t }

/-- A well-formed CIRCLE entity. -/
def mkCircle (i : Nat) (c : Point3) (r : ℚ) : Entity :=
  .geo { eid := i, kind := .circle, center := some c, radius := some r }

/-- A well-formed LWPOLYLINE entity. -/
def mkLw (i : Nat) (ps : List (ℚ × ℚ)) : Entity :=
  .geo { eid := i, kind := .lwpolyline, pts := some ps }

/-- The boundary of a closed polygon given by its vertex cycle, as
separate LINE segments between consecutive vertices. -/
def polygonLines (vs : List Point3) : List Entity :=
  (List.range vs.length).map
    (fun i => mkLine i (vs.getD i default) (vs.getD ((i + 1) % vs.length) default))

/-- A document with two circles, the second of which is malformed (its
center attribute is missing). -/
def c1doc : Doc :=
  ⟨[ mkCircle 1 ⟨0, 0, 0⟩ 1, .geo { eid := 2, kind := .circle, radius := some 1 } ], []⟩

/-- A triangle vertex cycle. -/
def triVerts : List Point3 := [⟨0, 0, 0⟩, ⟨10, 0, 0⟩, ⟨0, 10, 0⟩]

/-- The two lines of the duplicate-detection example, with reversed
endpoints. -/
def dupA : Entity := mkLine 1 ⟨0, 0, 0⟩ ⟨10, 0, 0⟩

def dupB : Entity := mkLine 2 ⟨10, 0, 0⟩ ⟨0, 0, 0⟩

/-- Four holes at `(±5, ±5)` relative to the bounding-box centroid. -/
def sym4 : List Entity :=
  [ mkCircle 1 ⟨5, 5, 0⟩ 1, mkCircle 2 ⟨5, -5, 0⟩ 1,
    mkCircle 3 ⟨-5, 5, 0⟩ 1, mkCircle 4 ⟨-5, -5, 0⟩ 1 ]

/-- Five holes, four at `(±5, ±5)` and one unpaired at `(3, 7)` relative
to the centroid (a diagonal line pins the bounding box symmetric about
the origin). -/
def sym5 : List Entity :=
  [ mkLine 9 ⟨-12, -12, 0⟩ ⟨12, 12, 0⟩,
    mkCircle 1 ⟨5, 5, 0⟩ 1, mkCircle 2 ⟨5, -5, 0⟩ 1,
    mkCircle 3 ⟨-5, 5, 0⟩ 1, mkCircle 4 ⟨-5, -5, 0⟩ 1,
    mkCircle 5 ⟨3, 7, 0⟩ 1 ]

/-- A model space whose only line lives inside a block reference. -/
def c6msp : List Entity :=
  [.insert 9 "0" false (elist [mkLine 1 ⟨0, 0, 0⟩ ⟨1, 0, 0⟩])]

/-- A model space with two top-level lines forming an open chain. -/
def chain2 : List Entity :=
  [ mkLine 1 ⟨0, 0, 0⟩ ⟨1, 0, 0⟩, mkLine 2 ⟨1, 0, 0⟩ ⟨1, 1, 0⟩ ]

/-- A flattened set with one polyline and no line. -/
def lwOnly : List Entity := [mkLw 1 [(0, 0), (1, 0), (1, 1)]]

/-- A single circle at the origin with radius 5. -/
def circle05 : List Entity := [mkCircle 1 ⟨0, 0, 0⟩ 5]

/-- A polyline whose vertex list is empty: it contributes no point, yet
its point list is produced successfully. -/
def lwEmpty : List Entity := [mkLw 1 []]

/-- A doubly nested block reference around a single line. -/
def c3msp : List Entity :=
  [.insert 9 "0" false (elist [.insert 8 "0" false (elist [mkLine 1 ⟨0, 0, 0⟩ ⟨1, 0, 0⟩])])]

/-- A file store holding one drawing made of an open two-line chain. -/
def c9store : FileStore := [ ("peca.dxf", chain2) ]

/-- The flattened LINE entities of a model space. -/
def linesOf (msp : Option (List Entity)) : List Entity :=
  (get_flattend_entities msp).filter isLineE

/-- Whether a LINE entity has both endpoint attributes. -/
def lineOk (e : Entity) : Bool := exOk (lineEndpoints e)

/-- Whether a CIRCLE entity has its center and radius attributes. -/
def circleOk (e : Entity) : Bool := exOk (getCenter e) && exOk (getRadius e)

/-- The endpoints of a well-formed LINE (junk default otherwise). -/
def lineSE (e : Entity) : Point3 × Point3 :=
  match lineEndpoints e with
  | .ok st => st
  | .error _ => (default, default)

/-- The total (junk-defaulted) duplicate signature of a line; on
well-formed lines it agrees with `sigOf`. -/
def sigP (precision : ℕ) (e : Entity) : (ℚ × ℚ × ℚ) × (ℚ × ℚ × ℚ) :=
  sortPair (roundPt precision (lineSE e).1) (roundPt precision (lineSE e).2)

/-- Whether an entity successfully produces a representative point list
for the bounding box (regardless of whether that list is empty). -/
def contributes (e : Entity) : Bool :=
  match entityBBoxPoints e with
  | .ok (some _) => true
  | _ => false

/-- Whether an entity either is not a block reference or resolves
successfully. -/
def insertResolves : Entity → Bool
  | .geo _ => true
  | .insert i l v c => exOk (virtualOf (.insert i l v c))

/-- The pure endpoint list built by the `check_closed_geometry` loop on
well-formed lines. -/
def cgEps (tolerance : ℚ) : List Entity → List (ℤ × ℤ)
  | [] => []
  | e :: rest =>
    (if isLineE e then
      [normalize_point tolerance (lineSE e).1, normalize_point tolerance (lineSE e).2]
     else []) ++ cgEps tolerance rest

/-- The pure original-coordinate dictionary built by the loop. -/
def cgDict (tolerance : ℚ) : List Entity → List ((ℤ × ℤ) × Point3) → List ((ℤ × ℤ) × Point3)
  | [], ap => ap
  | e :: rest, ap =>
    cgDict tolerance rest
      (if isLineE e then
        dictInsert (dictInsert ap (normalize_point tolerance (lineSE e).1) (lineSE e).1)
          (normalize_point tolerance (lineSE e).2) (lineSE e).2
       else ap)

/-- The pure inner duplicate-scan on well-formed lines. -/
def innerP (precision : ℕ) (l1 : Entity) : List Entity → List Entity → List Entity
  | [], acc => acc
  | l2 :: rs, acc =>
      innerP precision l1 rs
        (if sigP precision l1 = sigP precision l2 then addEnt (addEnt acc l1) l2 else acc)

/-- The pure outer duplicate-scan on well-formed lines. -/
def outerP (precision : ℕ) : List Entity → List Entity → List Entity
  | [], acc => acc
  | l1 :: rest, acc => outerP precision rest (innerP precision l1 rest acc)

/-- A one-vertex polyline, contour-eligible but contributing no
endpoint. -/
def lwOnly2 : List Entity := [mkLw 2 [(0, 0)]]

/-- The greedy-pairing invariant: every already visited, still
unmatched position forms no symmetric pair with any other unmatched
position.  (It holds trivially at index 0 and is preserved by the outer
loop.) -/
def Pinv (tolerance : ℚ) (i : ℕ) (ps : List RelPos) : Prop :=
  ∀ j m : ℕ, j < i → j < ps.length → m < ps.length → m ≠ j →
    (ps.getD j default).matched = false → (ps.getD m default).matched = false →
    sympair tolerance (ps.getD j default) (ps.getD m default) = false

/-- The inner point fold of `bboxFold` never touches the `has_data`
flag. -/
theorem bboxPtsFold_hasData (pts : List (ℚ × ℚ)) (st : BState) :
    (pts.foldl
      (fun st2 p =>
        { st2 with
          minx := pymin st2.minx (.fin p.1)
          maxx := pymax st2.maxx (.fin p.1)
          miny := pymin st2.miny (.fin p.2)
          maxy := pymax st2.maxy (.fin p.2) })
      st).hasData = st.hasData := by
  induction pts generalizing st with
  | nil => rfl
  | cons p rest ih => simpa using ih _

/-- One bounding-box fold step sets `has_data` exactly when the entity
produces its point list. -/
theorem bboxFold_hasData (st : BState) (e : Entity) :
    (bboxFold st e).hasData = (st.hasData || contributes e) := by
  unfold bboxFold contributes
  cases h : entityBBoxPoints e with
  | error er => simp
  | ok o =>
      cases o with
      | none => simp
      | some pts => simp [bboxPtsFold_hasData]

/-- The bounding-box fold has data exactly when some entity produced its
point list. -/
theorem bboxFoldl_hasData (l : List Entity) (st : BState) :
    (l.foldl bboxFold st).hasData = (st.hasData || l.any contributes) := by
  induction l generalizing st with
  | nil => simp
  | cons e rest ih =>
      simp only [List.foldl_cons, ih, bboxFold_hasData, List.any_cons]
      cases st.hasData <;> simp

/-- C8, counterexample: a polyline with an empty vertex list contributes
no point, yet its point list is produced, so the Extent Calculator
returns the degenerate infinite box instead of `None`. -/
theorem extent_calculator_cex :
    entityBBoxPoints (mkLw 1 []) = .ok (some []) ∧
    calculate_manual_bbox (some lwEmpty) = some (.pinf, .ninf, .pinf, .ninf) := by
  constructor
  · rfl
  · decide

/-- The Extent Calculator returns `None` exactly when no flattened
entity produces its representative point list. -/
theorem bbox_none_iff (msp : Option (List Entity)) :
    calculate_manual_bbox msp = none ↔
      (get_flattend_entities msp).any contributes = false := by
  unfold calculate_manual_bbox
  cases hemp : (get_flattend_entities msp).isEmpty with
  | true =>
      have h0 : get_flattend_entities msp = [] := by
        rwa [List.isEmpty_iff] at hemp
      simp [h0]
  | false =>
      simp only [hemp, Bool.false_eq_true, if_false, bboxFoldl_hasData, Bool.false_or]
      cases hany : (get_flattend_entities msp).any contributes with
      | true => simp [hany]
      | false => simp [hany]

/-- C8 (amended): on a single circle centered at the origin with radius
5 the Extent Calculator returns the box `(-5, 5, -5, 5)` with derived
width and height 10; and it returns `None` exactly when no entity of a
recognized kind successfully produces its representative point list (an
entity producing an empty point list counts as data and yields the
degenerate infinite box instead). -/
theorem extent_calculator_amended :
    calculate_manual_bbox (some circle05) = some (.fin (-5), .fin 5, .fin (-5), .fin 5)
    ∧ (get_geometric_properties (some circle05)).width = .fin 10
    ∧ (get_geometric_properties (some circle05)).height = .fin 10
    ∧ ∀ msp : Option (List Entity),
        (calculate_manual_bbox msp = none ↔
          ∀ e ∈ get_flattend_entities msp, contributes e = false) := by
  refine ⟨by decide, by decide, by decide, ?_⟩
  intro msp
  rw [bbox_none_iff, List.any_eq_false]
  simp

/-- C7, counterexample: a flattened set with a polyline and no line has
no contour-eligible Line entity, yet the Closed-Contour Verifier returns
`Ok`, not `Warning`. -/
theorem closed_contour_warning_cex :
    (check_closed_geometry (some lwOnly) TOLERANCIA_GEOMETRIA).status = .ok ∧
    (check_closed_geometry (some lwOnly) TOLERANCIA_GEOMETRIA).status ≠ .alerta := by
  constructor <;> decide

/-- C7 (amended): the endpoint-parity loop of the Closed-Contour
Verifier uses only Line entities, but its no-contour `Warning` fires
exactly when the flattened set contains neither Line nor LwPolyline
entities; a set with polylines but no lines yields `Ok`. -/
theorem closed_contour_amended :
    (∀ (msp : Option (List Entity)) (tolerance : ℚ),
        ((check_closed_geometry msp tolerance).status = .alerta ↔
          (get_flattend_entities msp).filter (fun e => isLineE e || isLwE e) = []))
    ∧ (∀ (tolerance : ℚ) (es : List Entity) (eps : List (ℤ × ℤ)) (ap : List ((ℤ × ℤ) × Point3)),
        cgLoop tolerance es eps ap = cgLoop tolerance (es.filter isLineE) eps ap)
    ∧ (∀ (msp : Option (List Entity)) (tolerance : ℚ),
        (get_flattend_entities msp).all (fun e => !isLineE e) = true →
        ((get_flattend_entities msp).filter (fun e => isLineE e || isLwE e)).isEmpty = false →
        (check_closed_geometry msp tolerance).status = .ok) := by
  have hloop : ∀ (tolerance : ℚ) (es : List Entity) (eps : List (ℤ × ℤ))
      (ap : List ((ℤ × ℤ) × Point3)),
      cgLoop tolerance es eps ap = cgLoop tolerance (es.filter isLineE) eps ap := by
    intro tolerance es
    induction es with
    | nil => intro eps ap; rfl
    | cons e rest ih =>
        intro eps ap
        by_cases hl : isLineE e
        · simp only [List.filter_cons, hl, if_true, cgLoop]
          cases lineEndpoints e with
          | error er => rfl
          | ok st => exact ih _ _
        · simp only [List.filter_cons, hl, if_false, cgLoop, Bool.false_eq_true]
          exact ih _ _
  refine ⟨?_, hloop, ?_⟩
  · intro msp tolerance
    unfold check_closed_geometry
    by_cases hemp : ((get_flattend_entities msp).filter (fun e => isLineE e || isLwE e)).isEmpty
    · rw [List.isEmpty_iff] at hemp
      simp [hemp]
    · rw [List.isEmpty_iff] at hemp
      simp only [List.isEmpty_eq_true, hemp, if_false]
      constructor
      · intro h
        exfalso
        revert h
        cases hcg : cgLoop tolerance ((get_flattend_entities msp).filter (fun e => isLineE e || isLwE e)) [] [] with
        | error er => simp
        | ok pair =>
            by_cases ho : (oddKeysOf pair.1).isEmpty
            · simp [ho]
            · simp [ho]
      · intro h; exact h.elim
  · intro msp tolerance hall hne
    unfold check_closed_geometry
    simp only [hne, Bool.false_eq_true, if_false]
    have hfe : ((get_flattend_entities msp).filter (fun e => isLineE e || isLwE e)).filter isLineE = [] := by
      rw [List.filter_eq_nil_iff]
      intro e he
      have he2 := List.mem_of_mem_filter he
      have := List.all_eq_true.mp hall e he2
      simpa using this
    rw [hloop, hfe]
    simp [cgLoop, oddKeysOf, firstDedup]

/-- C7 witness: on a concrete flattened set with one polyline and no
line the checker returns `Ok`. -/
theorem closed_contour_amended_witness :
    (check_closed_geometry (some lwOnly2) (1/10000)).status = .ok :=
  closed_contour_amended.2.2 (some lwOnly2) (1/10000) (by decide) (by decide)

/-- C1, counterexample: a drawing with two circles, one missing its
center attribute, makes `check_hole_symmetry` raise, and the exception
escapes `check_drawing`. -/
theorem orchestrator_cex : exOk (check_drawing c1doc) = false := by decide

/-- C1 (amended): `check_drawing` succeeds exactly when
`check_hole_symmetry` does not raise — the other four checks (entity
summary, layer analysis, duplicate lines, closed contour) trap their own
failures and return results (they are total functions into
`CheckResult`), while an internal failure of the hole-symmetry check
propagates out of the orchestrator. -/
theorem orchestrator_amended :
    ∀ doc : Doc,
      exOk (check_drawing doc) = exOk (check_hole_symmetry (some doc.msp) (1/100)) := by
  intro doc
  unfold check_drawing
  cases h : check_hole_symmetry (some doc.msp) (1/100) with
  | error er => simp [h, exOk, Bind.bind, Except.bind]
  | ok r => simp [h, exOk, Bind.bind, Except.bind, Pure.pure, Except.pure]

mutual
/-- A successful block-reference resolution contains no INSERT. -/
theorem virtualOf_no_insert (e : Entity) (out : List Entity)
    (h : virtualOf e = .ok out) : ∀ x ∈ out, isInsertE x = false := by
  cases e with
  | geo g =>
      intro x hx
      rw [virtualOf] at h
      cases h
      have hx2 := List.mem_singleton.mp hx
      subst hx2
      rfl
  | insert i lay vfail content =>
      intro x hx
      rw [virtualOf] at h
      by_cases hv : vfail
      · rw [if_pos hv] at h; cases h
      · rw [if_neg hv] at h
        exact expandL_no_insert content out h x hx

/-- Recursive resolution of a content list contains no INSERT. -/
theorem expandL_no_insert (l : EntList) (out : List Entity)
    (h : expandL l = .ok out) : ∀ x ∈ out, isInsertE x = false := by
  cases l with
  | nil =>
      intro x hx
      rw [expandL] at h
      cases h
      cases hx
  | cons e rest =>
      intro x hx
      rw [expandL] at h
      cases hv : virtualOf e with
      | error er => rw [hv] at h; cases h
      | ok c =>
          rw [hv] at h
          cases hr : expandL rest with
          | error er => rw [hr] at h; cases h
          | ok r =>
              rw [hr] at h
              cases h
              rcases List.mem_append.mp hx with hx2 | hx2
              · exact virtualOf_no_insert e c hv x hx2
              · exact expandL_no_insert rest r hr x hx2
end

/-- C3: on a model space whose block references all resolve, the
flattened entity set contains no block reference; resolution is
recursive to arbitrary nesting depth. -/
theorem flattener_no_insert (msp : List Entity)
    (h : ∀ e ∈ msp, insertResolves e = true) :
    ∀ x ∈ get_flattend_entities (some msp), isInsertE x = false := by
  induction msp with
  | nil => intro x hx; cases hx
  | cons e rest ih =>
      intro x hx
      have hx2 : x ∈ flattenOne e ++ flattenAll rest := hx
      rcases List.mem_append.mp hx2 with hx3 | hx3
      · have he := h e (by simp)
        cases e with
        | geo g =>
            simp only [flattenOne] at hx3
            have hx4 := List.mem_singleton.mp hx3
            subst hx4
            rfl
        | insert i lay vfail content =>
            rw [insertResolves] at he
            cases hv : virtualOf (.insert i lay vfail content) with
            | error er => rw [hv] at he; cases he
            | ok vs =>
                simp only [flattenOne, hv] at hx3
                exact virtualOf_no_insert _ vs hv x hx3
      · exact ih (fun e2 he2 => h e2 (by simp [he2])) x hx3

/-- C3 witness: a doubly nested block reference around a single line
flattens to a set with no block reference. -/
theorem flattener_no_insert_witness :
    (get_flattend_entities (some c3msp)).all (fun x => !isInsertE x) = true := by
  rw [List.all_eq_true]
  intro x hx
  simpa using flattener_no_insert c3msp (by decide) x hx

/-- A circle with valid center and radius produces its bounding-box
point list. -/
theorem circle_contributes (e : Entity) (hk : isCircleE e = true)
    (hok : circleOk e = true) : contributes e = true := by
  cases e with
  | insert i l v c => simp [isCircleE] at hk
  | geo g =>
      have hkind : g.kind = .circle := by simpa [isLineE, isCircleE] using hk
      rw [circleOk, Bool.and_eq_true] at hok
      obtain ⟨c, hc⟩ : ∃ c, g.center = some c := by
        cases hgc : g.center with
        | some c => exact ⟨c, rfl⟩
        | none => rw [getCenter] at hok; simp [hgc, exOk] at hok
      obtain ⟨r, hr⟩ : ∃ r, g.radius = some r := by
        cases hgr : g.radius with
        | some r => exact ⟨r, rfl⟩
        | none => rw [getRadius] at hok; simp [hgr, exOk] at hok
      simp [contributes, entityBBoxPoints, isCurveE, isLineE, isLwE, isPolyE, isCircleE,
        hkind, getCenter, getRadius, hc, hr]

/-- Building the relative positions succeeds when every hole has a
center attribute. -/
theorem buildRel_ok (cx cy : PFloat) (holes : List Entity)
    (h : ∀ e ∈ holes, exOk (getCenter e) = true) :
    ∃ ps, buildRel cx cy holes = .ok ps := by
  induction holes with
  | nil => exact ⟨[], rfl⟩
  | cons e rest ih =>
      have he := h e (by simp)
      obtain ⟨c, hc⟩ : ∃ c, getCenter e = .ok c := by
        cases hge : getCenter e with
        | ok c => exact ⟨c, rfl⟩
        | error er => rw [hge] at he; simp [exOk] at he
      obtain ⟨ps, hps⟩ := ih (fun x hx => h x (by simp [hx]))
      exact ⟨⟨psub (.fin c.x) cx, psub (.fin c.y) cy, e, false⟩ :: ps,
        by simp only [buildRel, hc, hps]⟩

/-- C10: with at least two well-formed circles in the flattened set, the
bounding box is available, the center `Warning` branch of the Hole
Symmetry Checker is unreachable, and the checker returns without raising
either `Ok` or the `AsymmetricHoles` status. -/
theorem hole_symmetry_safe (msp : Option (List Entity))
    (h2 : 2 ≤ ((get_flattend_entities msp).filter isCircleE).length)
    (hc : ∀ e ∈ (get_flattend_entities msp).filter isCircleE, circleOk e = true) :
    calculate_manual_bbox msp ≠ none ∧
    ∃ r, check_hole_symmetry msp (1/100) = .ok r ∧
      (r.status = .ok ∨ r.status = .furoSemSimetria) := by
  have hne : ((get_flattend_entities msp).filter isCircleE) ≠ [] := by
    intro h0
    rw [h0] at h2
    simp at h2
  obtain ⟨e, he⟩ := List.exists_mem_of_ne_nil _ hne
  have heC : isCircleE e = true := List.of_mem_filter he
  have heM : e ∈ get_flattend_entities msp := List.mem_of_mem_filter he
  have hcontrib : contributes e = true := circle_contributes e heC (hc e he)
  have hany : (get_flattend_entities msp).any contributes = true :=
    List.any_eq_true.mpr ⟨e, heM, hcontrib⟩
  have hbb : calculate_manual_bbox msp ≠ none := by
    intro h0
    rw [bbox_none_iff] at h0
    rw [h0] at hany
    cases hany
  refine ⟨hbb, ?_⟩
  obtain ⟨bb, hbbs⟩ : ∃ bb, calculate_manual_bbox msp = some bb := by
    cases hcb : calculate_manual_bbox msp with
    | none => exact absurd hcb hbb
    | some bb => exact ⟨bb, rfl⟩
  obtain ⟨mnx, mxx, mny, mxy⟩ := bb
  have hcen : ∀ x ∈ (get_flattend_entities msp).filter isCircleE, exOk (getCenter x) = true := by
    intro x hx
    have := hc x hx
    rw [circleOk, Bool.and_eq_true] at this
    exact this.1
  obtain ⟨ps, hps⟩ := buildRel_ok (pdiv2 (padd mnx mxx)) (pdiv2 (padd mny mxy))
    ((get_flattend_entities msp).filter isCircleE) hcen
  have hlt : ¬ ((get_flattend_entities msp).filter isCircleE).length < 2 := by omega
  simp only [check_hole_symmetry, hlt, if_false, hbbs, hps]
  cases hasym : (symFold (1/100) (List.range ps.length) (ps, [])).2.isEmpty with
  | true =>
      exact ⟨⟨.ok, "A furação da peça é simétrica.", .null⟩, by simp [hasym], Or.inl rfl⟩
  | false =>
      exact ⟨⟨.furoSemSimetria, "Furo(s) quebra(m) a simetria.",
        .entities (symFold (1/100) (List.range ps.length) (ps, [])).2⟩,
        by simp [hasym], Or.inr rfl⟩

/-- C10 witness: four valid circles give a raise-free verdict. -/
theorem hole_symmetry_safe_witness :
    calculate_manual_bbox (some sym4) ≠ none ∧
    ∃ r, check_hole_symmetry (some sym4) (1/100) = .ok r ∧
      (r.status = .ok ∨ r.status = .furoSemSimetria) :=
  hole_symmetry_safe (some sym4) (by decide) (by decide)

/-- The tuple order is total. -/
theorem tupLe_total (a b : ℚ × ℚ × ℚ) : tupLe a b = true ∨ tupLe b a = true := by
  unfold tupLe
  by_cases h1 : a.1 < b.1
  · left; simp [h1]
  · by_cases h2 : b.1 < a.1
    · right; simp [h2]
    · by_cases h3 : a.2.1 < b.2.1
      · left; simp [h1, h2, h3]
      · by_cases h4 : b.2.1 < a.2.1
        · right; simp [h1, h2, h4]
        · rcases le_total a.2.2 b.2.2 with h5 | h5
          · left; simp [h1, h2, h3, h4, h5]
          · right; simp [h1, h2, h3, h4, h5]

/-- The tuple order is antisymmetric. -/
theorem tupLe_antisymm (a b : ℚ × ℚ × ℚ) (h1 : tupLe a b = true)
    (h2 : tupLe b a = true) : a = b := by
  obtain ⟨a1, a2, a3⟩ := a
  obtain ⟨b1, b2, b3⟩ := b
  unfold tupLe at h1 h2
  simp only at h1 h2
  by_cases c1 : a1 < b1
  · rw [if_neg (lt_asymm c1), if_pos c1] at h2; cases h2
  · by_cases c2 : b1 < a1
    · rw [if_neg c1, if_pos c2] at h1; cases h1
    · have e1 : a1 = b1 := le_antisymm (not_lt.mp c2) (not_lt.mp c1)
      rw [if_neg c1, if_neg c2] at h1
      rw [if_neg c2, if_neg c1] at h2
      by_cases c3 : a2 < b2
      · rw [if_neg (lt_asymm c3), if_pos c3] at h2; cases h2
      · by_cases c4 : b2 < a2
        · rw [if_neg (lt_asymm c4), if_pos c4] at h1; cases h1
        · have e2 : a2 = b2 := le_antisymm (not_lt.mp c4) (not_lt.mp c3)
          rw [if_neg c3, if_neg c4] at h1
          rw [if_neg c4, if_neg c3] at h2
          have e3 : a3 = b3 := le_antisymm (of_decide_eq_true h1) (of_decide_eq_true h2)
          rw [e1, e2, e3]

/-- Python's 2-element sort is order-independent. -/
theorem sortPair_comm (a b : ℚ × ℚ × ℚ) : sortPair a b = sortPair b a := by
  unfold sortPair
  by_cases h1 : tupLe a b
  · by_cases h2 : tupLe b a
    · rw [if_pos h1, if_pos h2, tupLe_antisymm a b h1 h2]
    · rw [if_pos h1, if_neg h2]
  · rcases tupLe_total a b with h | h
    · exact absurd h h1
    · rw [if_neg h1, if_pos h]

/-- Set insertion adds exactly one identity. -/
theorem hasId_addEnt (acc : List Entity) (e : Entity) (i : ℕ) :
    hasId (addEnt acc e) i = (hasId acc i || e.eid == i) := by
  unfold addEnt
  by_cases h : hasId acc e.eid
  · rw [if_pos h]
    by_cases h2 : e.eid = i
    · subst h2; simp [h]
    · simp [h2]
  · rw [if_neg h]
    unfold hasId
    simp [List.any_append]

/-- The inner duplicate scan never removes an identity. -/
theorem innerP_hasId_mono (pr : ℕ) (l1 : Entity) (rs : List Entity)
    (acc : List Entity) (i : ℕ) (h : hasId acc i = true) :
    hasId (innerP pr l1 rs acc) i = true := by
  induction rs generalizing acc with
  | nil => exact h
  | cons l2 rs ih =>
      rw [innerP]
      apply ih
      by_cases hc : sigP pr l1 = sigP pr l2
      · rw [if_pos hc, hasId_addEnt, hasId_addEnt, h]; rfl
      · rwa [if_neg hc]

/-- Without a signature match the inner scan adds nothing. -/
theorem innerP_no_match (pr : ℕ) (l1 : Entity) (rs : List Entity)
    (acc : List Entity) (h : ∀ l2 ∈ rs, sigP pr l1 ≠ sigP pr l2) :
    innerP pr l1 rs acc = acc := by
  induction rs generalizing acc with
  | nil => rfl
  | cons l2 rs ih =>
      rw [innerP, if_neg (h l2 (by simp))]
      exact ih _ (fun x hx => h x (by simp [hx]))

/-- A signature match flags both participants. -/
theorem innerP_found (pr : ℕ) (l1 : Entity) (rs : List Entity)
    (acc : List Entity) (l2 : Entity) (hmem : l2 ∈ rs)
    (hsig : sigP pr l1 = sigP pr l2) :
    hasId (innerP pr l1 rs acc) l1.eid = true ∧
    hasId (innerP pr l1 rs acc) l2.eid = true := by
  induction rs generalizing acc with
  | nil => cases hmem
  | cons x rs ih =>
      rw [innerP]
      rcases List.mem_cons.mp hmem with heq | hmem2
      · subst heq
        rw [if_pos hsig]
        constructor
        · apply innerP_hasId_mono
          rw [hasId_addEnt, hasId_addEnt]
          simp
        · apply innerP_hasId_mono
          rw [hasId_addEnt]
          simp
      · exact ih _ hmem2

/-- The outer duplicate scan never removes an identity. -/
theorem outerP_hasId_mono (pr : ℕ) (lines : List Entity)
    (acc : List Entity) (i : ℕ) (h : hasId acc i = true) :
    hasId (outerP pr lines acc) i = true := by
  induction lines generalizing acc with
  | nil => exact h
  | cons l1 rest ih =>
      rw [outerP]
      exact ih _ (innerP_hasId_mono pr l1 rest acc i h)

/-- Pairwise distinct signatures leave the duplicate set unchanged. -/
theorem outerP_pairwise (pr : ℕ) (lines : List Entity) (acc : List Entity)
    (h : List.Pairwise (fun a b => sigP pr a ≠ sigP pr b) lines) :
    outerP pr lines acc = acc := by
  induction lines generalizing acc with
  | nil => rfl
  | cons l1 rest ih =>
      rw [outerP, innerP_no_match pr l1 rest acc (List.pairwise_cons.mp h).1]
      exact ih _ (List.pairwise_cons.mp h).2

/-- A matching pair anywhere in the list flags both of its members. -/
theorem outerP_found (pr : ℕ) (xs ys : List Entity) (l1 l2 : Entity)
    (acc : List Entity) (hmem : l2 ∈ ys) (hsig : sigP pr l1 = sigP pr l2) :
    hasId (outerP pr (xs ++ l1 :: ys) acc) l1.eid = true ∧
    hasId (outerP pr (xs ++ l1 :: ys) acc) l2.eid = true := by
  induction xs generalizing acc with
  | nil =>
      rw [List.nil_append, outerP]
      obtain ⟨ha, hb⟩ := innerP_found pr l1 ys acc l2 hmem hsig
      exact ⟨outerP_hasId_mono pr ys _ _ ha, outerP_hasId_mono pr ys _ _ hb⟩
  | cons x xs ih =>
      rw [List.cons_append, outerP]
      exact ih _

/-- On a well-formed line the raising signature agrees with the pure
one. -/
theorem sigOf_eq (pr : ℕ) (e : Entity) (h : lineOk e = true) :
    sigOf pr e = .ok (sigP pr e) := by
  cases hle : lineEndpoints e with
  | error er => rw [lineOk, hle] at h; simp [exOk] at h
  | ok st =>
      obtain ⟨s, t⟩ := st
      simp [sigOf, sigP, lineSE, hle]

/-- On well-formed lines the inner duplicate scan is the pure one. -/
theorem dupInner_eq (pr : ℕ) (l1 : Entity) (rs : List Entity)
    (acc : List Entity) (h1 : lineOk l1 = true)
    (h : ∀ l ∈ rs, lineOk l = true) :
    dupInner pr l1 rs acc = .ok (innerP pr l1 rs acc) := by
  induction rs generalizing acc with
  | nil => rfl
  | cons l2 rs2 ih =>
      rw [dupInner, innerP, sigOf_eq pr l1 h1, sigOf_eq pr l2 (h l2 (by simp))]
      exact ih _ (fun x hx => h x (by simp [hx]))

/-- On well-formed lines the outer duplicate scan is the pure one. -/
theorem dupOuter_eq (pr : ℕ) (lines : List Entity) (acc : List Entity)
    (h : ∀ l ∈ lines, lineOk l = true) :
    dupOuter pr lines acc = .ok (outerP pr lines acc) := by
  induction lines generalizing acc with
  | nil => rfl
  | cons l1 rest ih =>
      rw [dupOuter, outerP,
        dupInner_eq pr l1 rest acc (h l1 (by simp)) (fun x hx => h x (by simp [hx]))]
      exact ih _ (fun x hx => h x (by simp [hx]))

/-- On well-formed lines the duplicate check computes the pure scan. -/
theorem find_duplicate_lines_eq (msp : Option (List Entity))
    (hwf : ∀ l ∈ linesOf msp, lineOk l = true) :
    find_duplicate_lines msp 4 =
      (if (outerP 4 (linesOf msp) []).isEmpty = false then
        ⟨.erro, "Linha(s) envolvida(s) em duplicação.", .entities (outerP 4 (linesOf msp) [])⟩
      else ⟨.ok, "Nenhuma linha sobreposta encontrada.", .null⟩) := by
  have hwf2 : ∀ l ∈ (get_flattend_entities msp).filter isLineE, lineOk l = true := hwf
  simp only [find_duplicate_lines]
  rw [dupOuter_eq 4 _ [] hwf2]
  cases he : (outerP 4 ((get_flattend_entities msp).filter isLineE) []).isEmpty <;>
    simp [linesOf, he]

/-- A matching index pair flags both lines in the pure scan output. -/
theorem outerP_found_idx (msp : Option (List Entity)) (i j : ℕ)
    (hi : i < (linesOf msp).length) (hj : j < (linesOf msp).length)
    (hij : i < j) (hsig : sigP 4 ((linesOf msp)[i]) = sigP 4 ((linesOf msp)[j])) :
    hasId (outerP 4 (linesOf msp) []) ((linesOf msp)[i]).eid = true ∧
    hasId (outerP 4 (linesOf msp) []) ((linesOf msp)[j]).eid = true := by
  have hdecomp : linesOf msp =
      (linesOf msp).take i ++ (linesOf msp)[i] :: (linesOf msp).drop (i + 1) := by
    conv_lhs => rw [← List.take_append_drop i (linesOf msp)]
    rw [List.drop_eq_getElem_cons hi]
  have hlen : j - (i + 1) < ((linesOf msp).drop (i + 1)).length := by
    rw [List.length_drop]; omega
  have hmem0 := List.getElem_mem hlen
  rw [List.getElem_drop] at hmem0
  have hidx : i + 1 + (j - (i + 1)) = j := by omega
  simp only [hidx] at hmem0
  have := outerP_found 4 ((linesOf msp).take i) ((linesOf msp).drop (i + 1))
    ((linesOf msp)[i]) ((linesOf msp)[j]) [] hmem0 hsig
  rwa [← hdecomp] at this

/-- C4: the duplicate-line signature is order-independent (reversed
rounded endpoints yield equal signatures), any signature-equal pair gets
both of its lines flagged in the result data, and the check returns
`Error` precisely when some pair of lines shares a signature. -/
theorem duplicate_lines_spec (msp : Option (List Entity))
    (hwf : ∀ l ∈ linesOf msp, lineOk l = true) :
    ((find_duplicate_lines msp 4).status = .erro ↔
      ¬ (linesOf msp).Pairwise (fun a b => sigP 4 a ≠ sigP 4 b))
    ∧ (∀ (i j : ℕ) (hi : i < (linesOf msp).length) (hj : j < (linesOf msp).length),
        i < j → sigP 4 ((linesOf msp)[i]) = sigP 4 ((linesOf msp)[j]) →
        hasId (find_duplicate_lines msp 4).entData ((linesOf msp)[i]).eid = true ∧
        hasId (find_duplicate_lines msp 4).entData ((linesOf msp)[j]).eid = true)
    ∧ (∀ (e1 e2 : Entity) (s1 t1 s2 t2 : Point3),
        lineEndpoints e1 = .ok (s1, t1) → lineEndpoints e2 = .ok (s2, t2) →
        roundPt 4 s2 = roundPt 4 t1 → roundPt 4 t2 = roundPt 4 s1 →
        sigP 4 e1 = sigP 4 e2) := by
  have hne_of : ∀ (i j : ℕ) (hi : i < (linesOf msp).length) (hj : j < (linesOf msp).length),
      i < j → sigP 4 ((linesOf msp)[i]) = sigP 4 ((linesOf msp)[j]) →
      (outerP 4 (linesOf msp) []).isEmpty = false := by
    intro i j hi hj hij hsig
    have hfound := outerP_found_idx msp i j hi hj hij hsig
    cases houter : outerP 4 (linesOf msp) [] with
    | nil => rw [houter] at hfound; simp [hasId] at hfound
    | cons a l => rfl
  refine ⟨?_, ?_, ?_⟩
  · rw [find_duplicate_lines_eq msp hwf]
    constructor
    · intro hst
      by_cases he : (outerP 4 (linesOf msp) []).isEmpty = false
      · intro hpw
        rw [outerP_pairwise 4 _ [] hpw] at he
        simp [List.isEmpty] at he
      · rw [if_neg he] at hst
        simp at hst
    · intro hnpw
      rw [List.pairwise_iff_getElem] at hnpw
      push_neg at hnpw
      obtain ⟨i, j, hi, hj, hij, hsig⟩ := hnpw
      rw [if_pos (hne_of i j hi hj hij hsig)]
  · intro i j hi hj hij hsig
    have hfound := outerP_found_idx msp i j hi hj hij hsig
    rw [find_duplicate_lines_eq msp hwf, if_pos (hne_of i j hi hj hij hsig)]
    simpa [CheckResult.entData] using hfound
  · intro e1 e2 s1 t1 s2 t2 h1 h2 hr1 hr2
    unfold sigP lineSE
    rw [h1, h2]
    simp only
    rw [hr1, hr2, sortPair_comm]

/-- C4 witness: the lines `(0,0,0)-(10,0,0)` and `(10,0,0)-(0,0,0)` are
reported as an `Error` with both lines flagged. -/
theorem duplicate_lines_spec_witness :
    (find_duplicate_lines (some [dupA, dupB]) 4).status = .erro ∧
    hasId (find_duplicate_lines (some [dupA, dupB]) 4).entData 1 = true ∧
    hasId (find_duplicate_lines (some [dupA, dupB]) 4).entData 2 = true := by
  refine ⟨(duplicate_lines_spec (some [dupA, dupB]) (by decide)).1.mpr (by decide), ?_, ?_⟩
  · exact ((duplicate_lines_spec (some [dupA, dupB]) (by decide)).2.1 0 1
      (by decide) (by decide) (by decide) (by decide)).1
  · exact ((duplicate_lines_spec (some [dupA, dupB]) (by decide)).2.1 0 1
      (by decide) (by decide) (by decide) (by decide)).2

/-- On well-formed lines the endpoint-collection loop is the pure
computation. -/
theorem cgLoop_eq (tolerance : ℚ) (es : List Entity) (eps : List (ℤ × ℤ))
    (ap : List ((ℤ × ℤ) × Point3))
    (h : ∀ e ∈ es, isLineE e = true → lineOk e = true) :
    cgLoop tolerance es eps ap =
      .ok (eps ++ cgEps tolerance es, cgDict tolerance es ap) := by
  induction es generalizing eps ap with
  | nil => simp [cgLoop, cgEps, cgDict]
  | cons e rest ih =>
      rw [cgLoop, cgEps, cgDict]
      by_cases hl : isLineE e
      · have hok := h e (by simp) hl
        simp only [hl, if_true]
        split
        · rename_i er heq
          rw [lineOk, heq] at hok
          simp [exOk] at hok
        · rename_i s t heq
          have hse : lineSE e = (s, t) := by rw [lineSE, heq]
          rw [ih _ _ (fun x hx hlx => h x (by simp [hx]) hlx), hse]
          simp
      · simp only [hl, Bool.false_eq_true, if_false]
        rw [ih _ _ (fun x hx hlx => h x (by simp [hx]) hlx)]
        simp

/-- The pure endpoint list splits over concatenation. -/
theorem cgEps_append (tolerance : ℚ) (a b : List Entity) :
    cgEps tolerance (a ++ b) = cgEps tolerance a ++ cgEps tolerance b := by
  induction a with
  | nil => simp [cgEps]
  | cons e rest ih => rw [List.cons_append, cgEps, cgEps, ih, List.append_assoc]

/-- The endpoint list of the polygon lines built over an index list. -/
theorem cgEps_polygon (tolerance : ℚ) (f g : ℕ → Point3) (idx : List ℕ) :
    cgEps tolerance (idx.map (fun i => mkLine i (f i) (g i))) =
      idx.flatMap (fun i => [normalize_point tolerance (f i), normalize_point tolerance (g i)]) := by
  induction idx with
  | nil => rfl
  | cons i r ih =>
      rw [List.map_cons, cgEps, List.flatMap_cons, ← ih]
      rfl

/-- Multiplicities add over concatenation. -/
theorem cnt_append (k : ℤ × ℤ) (a b : List (ℤ × ℤ)) :
    cnt k (a ++ b) = cnt k a + cnt k b := by
  induction a with
  | nil => simp [cnt]
  | cons x r ih => rw [List.cons_append, cnt, cnt, ih]; omega

/-- Multiplicities are invariant under permutation. -/
theorem cnt_perm (k : ℤ × ℤ) {l1 l2 : List (ℤ × ℤ)} (h : List.Perm l1 l2) :
    cnt k l1 = cnt k l2 := by
  induction h with
  | nil => rfl
  | cons x _ ih => rw [cnt, cnt, ih]
  | swap x y l => rw [cnt, cnt, cnt, cnt]; omega
  | trans _ _ ih1 ih2 => exact ih1.trans ih2

/-- A key of positive multiplicity occurs in the list. -/
theorem cnt_pos (k : ℤ × ℤ) (l : List (ℤ × ℤ)) (h : cnt k l ≠ 0) : k ∈ l := by
  induction l with
  | nil => exact absurd rfl h
  | cons x r ih =>
      rw [cnt] at h
      by_cases hx : x = k
      · subst hx; exact List.mem_cons_self x r
      · rw [if_neg hx] at h
        exact List.mem_cons_of_mem x (ih (by omega))

/-- Counting over the interleaved endpoint list splits into the two
vertex streams. -/
theorem cnt_flatMap_pair (tolerance : ℚ) (f g : ℕ → Point3) (idx : List ℕ) (k : ℤ × ℤ) :
    cnt k (idx.flatMap (fun i => [normalize_point tolerance (f i), normalize_point tolerance (g i)])) =
      cnt k (idx.map (fun i => normalize_point tolerance (f i))) +
      cnt k (idx.map (fun i => normalize_point tolerance (g i))) := by
  induction idx with
  | nil => rfl
  | cons i r ih =>
      rw [List.flatMap_cons, List.map_cons, List.map_cons, cnt_append]
      simp only [cnt, ih]
      omega

/-- The successor-mod map permutes `range n`. -/
theorem map_mod_shift_perm (n : ℕ) :
    List.Perm ((List.range n).map (fun i => (i + 1) % n)) (List.range n) := by
  cases n with
  | zero => simp
  | succ m =>
      have hmap : (List.range m).map (fun i => (i + 1) % (m + 1)) =
          (List.range m).map (fun i => i + 1) :=
        List.map_congr_left (fun i hi =>
          Nat.mod_eq_of_lt (by have := List.mem_range.mp hi; omega))
      have h2 : List.range (m + 1) = 0 :: (List.range m).map (fun i => i + 1) := by
        rw [List.range_succ_eq_map]
      have lhs_eq : (List.range (m + 1)).map (fun i => (i + 1) % (m + 1)) =
          (List.range m).map (fun i => i + 1) ++ [0] := by
        rw [List.range_succ, List.map_append, hmap]
        simp
      rw [lhs_eq, h2]
      exact List.perm_append_singleton 0 ((List.range m).map (fun i => i + 1))

/-- Reindexing the second vertex stream by the successor-mod map leaves
multiplicities unchanged. -/
theorem cnt_shift (n : ℕ) (h : ℕ → ℤ × ℤ) (k : ℤ × ℤ) :
    cnt k ((List.range n).map (fun i => h ((i + 1) % n))) =
      cnt k ((List.range n).map h) := by
  have hm : (List.range n).map (fun i => h ((i + 1) % n)) =
      ((List.range n).map (fun i => (i + 1) % n)).map h := by
    rw [List.map_map]
    rfl
  rw [hm]
  exact cnt_perm k ((map_mod_shift_perm n).map h)

/-- Reading a list back through `getD` over its index range. -/
theorem map_getD_range (l : List Point3) (d : Point3) :
    (List.range l.length).map (fun i => l.getD i d) = l := by
  induction l with
  | nil => rfl
  | cons a r ih =>
      rw [List.length_cons, List.range_succ_eq_map, List.map_cons, List.getD_cons_zero,
        List.map_map]
      have : (List.range r.length).map ((fun i => (a :: r).getD i d) ∘ Nat.succ) =
          (List.range r.length).map (fun i => r.getD i d) :=
        List.map_congr_left (fun i _ => by simp [List.getD_cons_succ])
      rw [this, ih]

/-- Flattening is the identity on a set without block references. -/
theorem flattenAll_geo (l : List Entity) (h : ∀ e ∈ l, isInsertE e = false) :
    flattenAll l = l := by
  induction l with
  | nil => rfl
  | cons e rest ih =>
      rw [flattenAll, ih (fun x hx => h x (by simp [hx]))]
      cases e with
      | geo g => rfl
      | insert i lay v c =>
          have := h (.insert i lay v c) (by simp)
          simp [isInsertE] at this

/-- Every polygon segment is a well-formed line. -/
theorem polygonLines_mem (vs : List Point3) (e : Entity)
    (he : e ∈ polygonLines vs) :
    isLineE e = true ∧ lineOk e = true ∧ isInsertE e = false ∧ isLwE e = false := by
  obtain ⟨i, _, rfl⟩ := List.mem_map.mp he
  refine ⟨rfl, rfl, rfl, rfl⟩

/-- The `j`-th polygon segment. -/
theorem polygonLines_getElem (vs : List Point3) (j : ℕ) (hj : j < vs.length)
    (hj2 : j < (polygonLines vs).length) :
    (polygonLines vs)[j] =
      mkLine j (vs.getD j default) (vs.getD ((j + 1) % vs.length) default) := by
  simp [polygonLines]

/-- The endpoint multiset of a full polygon: every vertex key counted
twice. -/
theorem cnt_polygon (tolerance : ℚ) (vs : List Point3) (k : ℤ × ℤ) :
    cnt k (cgEps tolerance (polygonLines vs)) =
      2 * cnt k (vs.map (normalize_point tolerance)) := by
  rw [polygonLines, cgEps_polygon, cnt_flatMap_pair]
  have hs := cnt_shift vs.length (fun i => normalize_point tolerance (vs.getD i default)) k
  simp only at hs
  rw [hs]
  have hback : (List.range vs.length).map (fun i => normalize_point tolerance (vs.getD i default)) =
      vs.map (normalize_point tolerance) := by
    rw [show (fun i => normalize_point tolerance (vs.getD i default)) =
        (normalize_point tolerance) ∘ (fun i => vs.getD i default) from rfl,
      ← List.map_map, map_getD_range]
  rw [hback]
  omega

/-- Removing the `j`-th segment removes exactly one occurrence of each
of its two endpoint keys. -/
theorem cnt_erased (tolerance : ℚ) (vs : List Point3) (j : ℕ) (k : ℤ × ℤ)
    (hj : j < vs.length) :
    cnt k (cgEps tolerance ((polygonLines vs).eraseIdx j)) +
      cnt k [normalize_point tolerance (vs.getD j default),
             normalize_point tolerance (vs.getD ((j + 1) % vs.length) default)] =
      cnt k (cgEps tolerance (polygonLines vs)) := by
  have hjl : j < (polygonLines vs).length := by simpa [polygonLines] using hj
  have hsingle : cgEps tolerance
      (mkLine j (vs.getD j default) (vs.getD ((j + 1) % vs.length) default) ::
        (polygonLines vs).drop (j + 1)) =
      [normalize_point tolerance (vs.getD j default),
       normalize_point tolerance (vs.getD ((j + 1) % vs.length) default)] ++
        cgEps tolerance ((polygonLines vs).drop (j + 1)) := by
    rw [cgEps]
    rfl
  have hdecomp : cnt k (cgEps tolerance (polygonLines vs)) =
      cnt k (cgEps tolerance ((polygonLines vs).take j)) +
      (cnt k [normalize_point tolerance (vs.getD j default),
              normalize_point tolerance (vs.getD ((j + 1) % vs.length) default)] +
       cnt k (cgEps tolerance ((polygonLines vs).drop (j + 1)))) := by
    conv_lhs =>
      rw [← List.take_append_drop j (polygonLines vs), List.drop_eq_getElem_cons hjl,
        polygonLines_getElem vs j hj hjl]
    rw [cgEps_append, cnt_append, hsingle, cnt_append]
  rw [List.eraseIdx_eq_take_drop_succ, cgEps_append, cnt_append, hdecomp]
  omega

/-- Distinct vertex indices have distinct normalized keys. -/
theorem norm_index_inj (tolerance : ℚ) (vs : List Point3)
    (hnd : (vs.map (normalize_point tolerance)).Nodup)
    (i1 i2 : ℕ) (h1 : i1 < vs.length) (h2 : i2 < vs.length)
    (heq : normalize_point tolerance (vs.getD i1 default) =
      normalize_point tolerance (vs.getD i2 default)) : i1 = i2 := by
  have hm1 : i1 < (vs.map (normalize_point tolerance)).length := by simpa using h1
  have hm2 : i2 < (vs.map (normalize_point tolerance)).length := by simpa using h2
  have e1 : vs.getD i1 default = vs[i1] := by simp [List.getElem?_eq_getElem h1]
  have e2 : vs.getD i2 default = vs[i2] := by simp [List.getElem?_eq_getElem h2]
  have hg : (vs.map (normalize_point tolerance))[i1] =
      (vs.map (normalize_point tolerance))[i2] := by
    rw [e1, e2] at heq
    simpa only [List.getElem_map] using heq
  have hfin : (⟨i1, hm1⟩ : Fin (vs.map (normalize_point tolerance)).length) = ⟨i2, hm2⟩ :=
    List.nodup_iff_injective_getElem.mp hnd hg
  exact congrArg Fin.val hfin

/-- First-occurrence deduplication preserves membership. -/
theorem mem_firstDedup (l : List (ℤ × ℤ)) (k : ℤ × ℤ) :
    k ∈ firstDedup l ↔ k ∈ l := by
  induction l with
  | nil => simp [firstDedup]
  | cons x r ih =>
      rw [firstDedup]
      constructor
      · intro h
        rcases List.mem_cons.mp h with h2 | h2
        · simp [h2]
        · exact List.mem_cons_of_mem x (ih.mp (List.mem_of_mem_filter h2))
      · intro h
        rcases List.mem_cons.mp h with h2 | h2
        · simp [h2]
        · by_cases hx : k = x
          · simp [hx]
          · exact List.mem_cons_of_mem x
              (List.mem_filter.mpr ⟨ih.mpr h2, by simpa using hx⟩)

/-- First-occurrence deduplication has no duplicates. -/
theorem nodup_firstDedup (l : List (ℤ × ℤ)) : (firstDedup l).Nodup := by
  induction l with
  | nil => simp [firstDedup]
  | cons x r ih =>
      rw [firstDedup]
      refine List.nodup_cons.mpr ⟨?_, ih.filter _⟩
      intro hmem
      have := List.of_mem_filter hmem
      simp at this

/-- Membership in the odd-multiplicity key list. -/
theorem mem_oddKeysOf (eps : List (ℤ × ℤ)) (k : ℤ × ℤ) :
    k ∈ oddKeysOf eps ↔ k ∈ eps ∧ cnt k eps % 2 = 1 := by
  unfold oddKeysOf
  constructor
  · intro h
    exact ⟨(mem_firstDedup eps k).mp (List.mem_of_mem_filter h),
      by simpa using List.of_mem_filter h⟩
  · intro ⟨h1, h2⟩
    exact List.mem_filter.mpr ⟨(mem_firstDedup eps k).mpr h1, by simpa using h2⟩

/-- A key never written by the loop keeps its previous binding. -/
theorem cgDict_unwritten (tolerance : ℚ) (es : List Entity)
    (ap : List ((ℤ × ℤ) × Point3)) (k : ℤ × ℤ)
    (h : k ∉ cgEps tolerance es) :
    dictGet (cgDict tolerance es ap) k = dictGet ap k := by
  induction es generalizing ap with
  | nil => rfl
  | cons e rest ih =>
      rw [cgEps] at h
      rw [cgDict]
      by_cases hl : isLineE e
      · rw [if_pos hl]
        simp only [hl, if_true, List.mem_append] at h
        push_neg at h
        obtain ⟨hpair, hrest⟩ := h
        have hks : k ≠ normalize_point tolerance (lineSE e).1 := by
          intro hk; exact hpair (by simp [hk])
        have hkt : k ≠ normalize_point tolerance (lineSE e).2 := by
          intro hk; exact hpair (by simp [hk])
        rw [ih _ hrest]
        rw [dictInsert, dictInsert, dictGet, if_neg (by simpa using hkt.symm), dictGet,
          if_neg (by simpa using hks.symm)]
      · rw [if_neg hl]
        simp only [hl, Bool.false_eq_true, if_false, List.nil_append] at h
        exact ih _ h

/-- When every write to key `k` carries the value `v`, the final binding
of a written key `k` is `v`. -/
theorem cgDict_value (tolerance : ℚ) (es : List Entity)
    (ap : List ((ℤ × ℤ) × Point3)) (k : ℤ × ℤ) (v : Point3)
    (huniq : ∀ e ∈ es, isLineE e = true →
      (normalize_point tolerance (lineSE e).1 = k → (lineSE e).1 = v) ∧
      (normalize_point tolerance (lineSE e).2 = k → (lineSE e).2 = v))
    (hmem : k ∈ cgEps tolerance es) :
    dictGet (cgDict tolerance es ap) k = some v := by
  induction es generalizing ap with
  | nil => cases hmem
  | cons e rest ih =>
      rw [cgEps] at hmem
      rw [cgDict]
      by_cases hl : isLineE e
      · rw [if_pos hl]
        by_cases hm : k ∈ cgEps tolerance rest
        · exact ih _ (fun x hx => huniq x (by simp [hx])) hm
        · rw [cgDict_unwritten tolerance rest _ k hm]
          simp only [hl, if_true, List.mem_append] at hmem
          have hpair : k ∈ [normalize_point tolerance (lineSE e).1,
              normalize_point tolerance (lineSE e).2] := by
            rcases hmem with h2 | h2
            · exact h2
            · exact absurd h2 hm
          have hue := huniq e (List.mem_cons_self e rest) hl
          rw [dictInsert, dictInsert, dictGet]
          by_cases hkt : normalize_point tolerance (lineSE e).2 = k
          · rw [if_pos (by simpa using hkt)]
            rw [hue.2 hkt]
          · rw [if_neg (by simpa using hkt), dictGet]
            have hks : normalize_point tolerance (lineSE e).1 = k := by
              rcases List.mem_cons.mp hpair with h3 | h3
              · exact h3.symm
              · rcases List.mem_cons.mp h3 with h4 | h4
                · exact absurd h4.symm hkt
                · cases h4
            rw [if_pos (by simpa using hks), hue.1 hks]
      · rw [if_neg hl]
        simp only [hl, Bool.false_eq_true, if_false, List.nil_append] at hmem
        exact ih _ (fun x hx => huniq x (by simp [hx])) hmem

/-- Evaluation of the Closed-Contour Verifier on a nonempty eligible set
of well-formed lines. -/
theorem check_closed_geometry_eq (msp : Option (List Entity)) (tolerance : ℚ)
    (hwf : ∀ e ∈ (get_flattend_entities msp).filter (fun e => isLineE e || isLwE e),
      isLineE e = true → lineOk e = true)
    (hne : ((get_flattend_entities msp).filter (fun e => isLineE e || isLwE e)).isEmpty = false) :
    check_closed_geometry msp tolerance =
      (if (oddKeysOf (cgEps tolerance
            ((get_flattend_entities msp).filter (fun e => isLineE e || isLwE e)))).isEmpty = false
       then
        ⟨.erro, "Contorno aberto! Pontos soltos.",
          .points ((oddKeysOf (cgEps tolerance
              ((get_flattend_entities msp).filter (fun e => isLineE e || isLwE e)))).map
            (fun k => (dictGet (cgDict tolerance
                ((get_flattend_entities msp).filter (fun e => isLineE e || isLwE e)) []) k).getD default))⟩
       else ⟨.ok, "O contorno da peça está fechado.", .null⟩) := by
  simp only [check_closed_geometry]
  rw [hne]
  simp only [Bool.false_eq_true, if_false]
  rw [cgLoop_eq tolerance _ [] [] hwf]
  simp only [List.nil_append]
  cases ho : (oddKeysOf (cgEps tolerance
      ((get_flattend_entities msp).filter (fun e => isLineE e || isLwE e)))).isEmpty with
  | true => simp [ho]
  | false => simp [ho]

/-- The successor index modulo the length differs from the index. -/
theorem mod_succ_ne (n j : ℕ) (hn : 3 ≤ n) (hj : j < n) : (j + 1) % n ≠ j := by
  rcases Nat.lt_or_ge (j + 1) n with h | h
  · rw [Nat.mod_eq_of_lt h]; omega
  · have h1 : j + 1 = n := by omega
    rw [h1, Nat.mod_self]
    omega

/-- The two endpoint keys of the removed segment have odd multiplicity,
all other keys even. -/
theorem erased_parity (tolerance : ℚ) (vs : List Point3) (j : ℕ)
    (hn : 3 ≤ vs.length)
    (hnd : (vs.map (normalize_point tolerance)).Nodup) (hj : j < vs.length) :
    cnt (normalize_point tolerance (vs.getD j default))
        (cgEps tolerance ((polygonLines vs).eraseIdx j)) % 2 = 1
    ∧ cnt (normalize_point tolerance (vs.getD ((j + 1) % vs.length) default))
        (cgEps tolerance ((polygonLines vs).eraseIdx j)) % 2 = 1
    ∧ ∀ k : ℤ × ℤ, k ≠ normalize_point tolerance (vs.getD j default) →
        k ≠ normalize_point tolerance (vs.getD ((j + 1) % vs.length) default) →
        cnt k (cgEps tolerance ((polygonLines vs).eraseIdx j)) % 2 = 0 := by
  have hNM : normalize_point tolerance (vs.getD j default) ≠
      normalize_point tolerance (vs.getD ((j + 1) % vs.length) default) := by
    intro h
    exact mod_succ_ne vs.length j hn hj
      (norm_index_inj tolerance vs hnd ((j + 1) % vs.length) j
        (Nat.mod_lt _ (by omega)) hj h.symm)
  refine ⟨?_, ?_, ?_⟩
  · have hme := cnt_erased tolerance vs j (normalize_point tolerance (vs.getD j default)) hj
    have hpoly := cnt_polygon tolerance vs (normalize_point tolerance (vs.getD j default))
    have hpair : cnt (normalize_point tolerance (vs.getD j default))
        [normalize_point tolerance (vs.getD j default),
         normalize_point tolerance (vs.getD ((j + 1) % vs.length) default)] = 1 := by
      rw [cnt, cnt, cnt, if_pos rfl, if_neg (fun h => hNM h.symm)]
    omega
  · have hme := cnt_erased tolerance vs j
      (normalize_point tolerance (vs.getD ((j + 1) % vs.length) default)) hj
    have hpoly := cnt_polygon tolerance vs
      (normalize_point tolerance (vs.getD ((j + 1) % vs.length) default))
    have hpair : cnt (normalize_point tolerance (vs.getD ((j + 1) % vs.length) default))
        [normalize_point tolerance (vs.getD j default),
         normalize_point tolerance (vs.getD ((j + 1) % vs.length) default)] = 1 := by
      rw [cnt, cnt, cnt, if_neg hNM, if_pos rfl]
    omega
  · intro k hk1 hk2
    have hme := cnt_erased tolerance vs j k hj
    have hpoly := cnt_polygon tolerance vs k
    have hpair : cnt k [normalize_point tolerance (vs.getD j default),
        normalize_point tolerance (vs.getD ((j + 1) % vs.length) default)] = 0 := by
      rw [cnt, cnt, cnt, if_neg (fun h => hk1 h.symm), if_neg (fun h => hk2 h.symm)]
    omega

/-- C2: a closed polygon supplied as separate line segments passes the
Closed-Contour Verifier; removing any one segment produces an `Error`
whose dangling-point data is exactly the two endpoints of the removed
segment. -/
theorem closed_contour_polygon (vs : List Point3) (tolerance : ℚ)
    (hn : 3 ≤ vs.length)
    (hnd : (vs.map (normalize_point tolerance)).Nodup) :
    (check_closed_geometry (some (polygonLines vs)) tolerance).status = .ok
    ∧ ∀ j, j < vs.length →
        ((check_closed_geometry (some ((polygonLines vs).eraseIdx j)) tolerance).status = .erro
        ∧ (check_closed_geometry (some ((polygonLines vs).eraseIdx j)) tolerance).ptData.length = 2
        ∧ (check_closed_geometry (some ((polygonLines vs).eraseIdx j)) tolerance).ptData.toFinset =
            {vs.getD j default, vs.getD ((j + 1) % vs.length) default}) := by
  have hlen : (polygonLines vs).length = vs.length := by simp [polygonLines]
  constructor
  · have hfl : get_flattend_entities (some (polygonLines vs)) = polygonLines vs :=
      flattenAll_geo _ (fun e he => (polygonLines_mem vs e he).2.2.1)
    have hwf1 : ∀ e ∈ (get_flattend_entities (some (polygonLines vs))).filter
        (fun e => isLineE e || isLwE e), isLineE e = true → lineOk e = true := by
      rw [hfl]
      exact fun e he _ => (polygonLines_mem vs e (List.mem_of_mem_filter he)).2.1
    have hfilter : (polygonLines vs).filter (fun e => isLineE e || isLwE e) = polygonLines vs :=
      List.filter_eq_self.mpr (fun e he => by simp [(polygonLines_mem vs e he).1])
    have hne1 : ((get_flattend_entities (some (polygonLines vs))).filter
        (fun e => isLineE e || isLwE e)).isEmpty = false := by
      rw [hfl, hfilter]
      cases hpl : polygonLines vs with
      | nil => rw [hpl] at hlen; simp at hlen; omega
      | cons a l => rfl
    rw [check_closed_geometry_eq _ _ hwf1 hne1, hfl, hfilter]
    have hodd : oddKeysOf (cgEps tolerance (polygonLines vs)) = [] := by
      rw [oddKeysOf]
      apply List.filter_eq_nil_iff.mpr
      intro a ha
      simp only [decide_eq_true_eq]
      rw [cnt_polygon]
      omega
    rw [hodd]
    simp
  · intro j hj
    have hNM : normalize_point tolerance (vs.getD j default) ≠
        normalize_point tolerance (vs.getD ((j + 1) % vs.length) default) := by
      intro h
      exact mod_succ_ne vs.length j hn hj
        (norm_index_inj tolerance vs hnd ((j + 1) % vs.length) j
          (Nat.mod_lt _ (by omega)) hj h.symm)
    have hsub := List.eraseIdx_subset (polygonLines vs) j
    have hfl2 : get_flattend_entities (some ((polygonLines vs).eraseIdx j)) =
        (polygonLines vs).eraseIdx j :=
      flattenAll_geo _ (fun e he => (polygonLines_mem vs e (hsub he)).2.2.1)
    have hfilter2 : ((polygonLines vs).eraseIdx j).filter (fun e => isLineE e || isLwE e) =
        (polygonLines vs).eraseIdx j :=
      List.filter_eq_self.mpr (fun e he => by simp [(polygonLines_mem vs e (hsub he)).1])
    have hwf2 : ∀ e ∈ (get_flattend_entities (some ((polygonLines vs).eraseIdx j))).filter
        (fun e => isLineE e || isLwE e), isLineE e = true → lineOk e = true := by
      rw [hfl2]
      exact fun e he _ => (polygonLines_mem vs e (hsub (List.mem_of_mem_filter he))).2.1
    have hlen2 : ((polygonLines vs).eraseIdx j).length = vs.length - 1 := by
      rw [List.length_eraseIdx_of_lt (by rw [hlen]; exact hj), hlen]
    have hne2 : ((get_flattend_entities (some ((polygonLines vs).eraseIdx j))).filter
        (fun e => isLineE e || isLwE e)).isEmpty = false := by
      rw [hfl2, hfilter2]
      cases hpl : (polygonLines vs).eraseIdx j with
      | nil => rw [hpl] at hlen2; simp at hlen2; omega
      | cons a l => rfl
    rw [check_closed_geometry_eq _ _ hwf2 hne2, hfl2, hfilter2]
    obtain ⟨hoddN, hoddM, hother⟩ := erased_parity tolerance vs j hn hnd hj
    have hmemN : normalize_point tolerance (vs.getD j default) ∈
        oddKeysOf (cgEps tolerance ((polygonLines vs).eraseIdx j)) :=
      (mem_oddKeysOf _ _).mpr ⟨cnt_pos _ _ (by omega), hoddN⟩
    have hmemM : normalize_point tolerance (vs.getD ((j + 1) % vs.length) default) ∈
        oddKeysOf (cgEps tolerance ((polygonLines vs).eraseIdx j)) :=
      (mem_oddKeysOf _ _).mpr ⟨cnt_pos _ _ (by omega), hoddM⟩
    have hsubKeys : ∀ k ∈ oddKeysOf (cgEps tolerance ((polygonLines vs).eraseIdx j)),
        k = normalize_point tolerance (vs.getD j default) ∨
        k = normalize_point tolerance (vs.getD ((j + 1) % vs.length) default) := by
      intro k hk
      obtain ⟨hk1, hk2⟩ := (mem_oddKeysOf _ _).mp hk
      by_contra hcon
      push_neg at hcon
      have := hother k hcon.1 hcon.2
      omega
    have hne3 : (oddKeysOf (cgEps tolerance ((polygonLines vs).eraseIdx j))).isEmpty = false := by
      cases ho : oddKeysOf (cgEps tolerance ((polygonLines vs).eraseIdx j)) with
      | nil => rw [ho] at hmemN; cases hmemN
      | cons a l => rfl
    rw [if_pos hne3]
    have hlookN : dictGet (cgDict tolerance ((polygonLines vs).eraseIdx j) [])
        (normalize_point tolerance (vs.getD j default)) = some (vs.getD j default) := by
      apply cgDict_value
      · intro e he hle
        obtain ⟨i, hi, rfl⟩ := List.mem_map.mp (hsub he)
        have hiln := List.mem_range.mp hi
        constructor
        · intro hni
          have hij : i = j := norm_index_inj tolerance vs hnd i j hiln hj hni
          subst hij
          rfl
        · intro hni
          have him : (i + 1) % vs.length < vs.length := Nat.mod_lt _ (by omega)
          have hij : (i + 1) % vs.length = j :=
            norm_index_inj tolerance vs hnd ((i + 1) % vs.length) j him hj hni
          show vs.getD ((i + 1) % vs.length) default = vs.getD j default
          rw [hij]
      · exact cnt_pos _ _ (by omega)
    have hlookM : dictGet (cgDict tolerance ((polygonLines vs).eraseIdx j) [])
        (normalize_point tolerance (vs.getD ((j + 1) % vs.length) default)) =
        some (vs.getD ((j + 1) % vs.length) default) := by
      apply cgDict_value
      · intro e he hle
        obtain ⟨i, hi, rfl⟩ := List.mem_map.mp (hsub he)
        have hiln := List.mem_range.mp hi
        have hjm : (j + 1) % vs.length < vs.length := Nat.mod_lt _ (by omega)
        constructor
        · intro hni
          have hij : i = (j + 1) % vs.length :=
            norm_index_inj tolerance vs hnd i ((j + 1) % vs.length) hiln hjm hni
          subst hij
          rfl
        · intro hni
          have him : (i + 1) % vs.length < vs.length := Nat.mod_lt _ (by omega)
          have hij : (i + 1) % vs.length = (j + 1) % vs.length :=
            norm_index_inj tolerance vs hnd ((i + 1) % vs.length) ((j + 1) % vs.length) him hjm hni
          show vs.getD ((i + 1) % vs.length) default = vs.getD ((j + 1) % vs.length) default
          rw [hij]
      · exact cnt_pos _ _ (by omega)
    have hnodupKeys : (oddKeysOf (cgEps tolerance ((polygonLines vs).eraseIdx j))).Nodup :=
      (nodup_firstDedup _).filter _
    have hKeysFinset : (oddKeysOf (cgEps tolerance ((polygonLines vs).eraseIdx j))).toFinset =
        {normalize_point tolerance (vs.getD j default),
         normalize_point tolerance (vs.getD ((j + 1) % vs.length) default)} := by
      ext k
      simp only [List.mem_toFinset, Finset.mem_insert, Finset.mem_singleton]
      constructor
      · exact hsubKeys k
      · rintro (rfl | rfl)
        · exact hmemN
        · exact hmemM
    have hlenKeys : (oddKeysOf (cgEps tolerance ((polygonLines vs).eraseIdx j))).length = 2 := by
      rw [← List.toFinset_card_of_nodup hnodupKeys, hKeysFinset, Finset.card_pair hNM]
    refine ⟨rfl, ?_, ?_⟩
    · simp [CheckResult.ptData, hlenKeys]
    · show ((oddKeysOf (cgEps tolerance ((polygonLines vs).eraseIdx j))).map
        (fun k => (dictGet (cgDict tolerance ((polygonLines vs).eraseIdx j) []) k).getD default)).toFinset = _
      ext x
      simp only [List.mem_toFinset, List.mem_map, Finset.mem_insert, Finset.mem_singleton]
      constructor
      · rintro ⟨k, hk, rfl⟩
        rcases hsubKeys k hk with rfl | rfl
        · left; rw [hlookN]; rfl
        · right; rw [hlookM]; rfl
      · rintro (rfl | rfl)
        · exact ⟨_, hmemN, by rw [hlookN]; rfl⟩
        · exact ⟨_, hmemM, by rw [hlookM]; rfl⟩

/-- C2 witness: the triangle `(0,0,0), (10,0,0), (0,10,0)` at tolerance
`1e-4` verifies closed, and erasing its first edge reports exactly its
two endpoints as dangling. -/
theorem closed_contour_polygon_witness :
    (check_closed_geometry (some (polygonLines triVerts)) (1/10000)).status = .ok ∧
    (check_closed_geometry (some ((polygonLines triVerts).eraseIdx 0)) (1/10000)).status = .erro := by
  have h := closed_contour_polygon triVerts (1/10000) (by decide) (by decide)
  exact ⟨h.1, (h.2 0 (by decide)).1⟩

/-- The candidate scan succeeds on well-formed lines, and the surviving
pool stays well-formed. -/
theorem findNext_ok (p : Point3) (rem : List Entity)
    (h : ∀ l ∈ rem, lineOk l = true) :
    (∃ q rem2, findNext p rem = .ok (some (q, rem2)) ∧ ∀ l ∈ rem2, lineOk l = true)
    ∨ findNext p rem = .ok none := by
  induction rem with
  | nil => right; rfl
  | cons l rest ih =>
      have hl := h l (by simp)
      obtain ⟨s, t, hst⟩ : ∃ s t, lineEndpoints l = .ok (s, t) := by
        cases hle : lineEndpoints l with
        | ok st => obtain ⟨s0, t0⟩ := st; exact ⟨s0, t0, rfl⟩
        | error er => rw [lineOk, hle] at hl; simp [exOk] at hl
      have hrest : ∀ x ∈ rest, lineOk x = true := fun x hx => h x (by simp [hx])
      by_cases hc1 : pclose p s
      · left
        exact ⟨t, rest, by simp only [findNext, hst]; rw [if_pos hc1], hrest⟩
      · by_cases hc2 : pclose p t
        · left
          exact ⟨s, rest, by simp only [findNext, hst]; rw [if_neg hc1, if_pos hc2], hrest⟩
        · rcases ih hrest with ⟨q, rem2, hfn, hwf2⟩ | hfn
          · left
            refine ⟨q, l :: rem2,
              by simp only [findNext, hst]; rw [if_neg hc1, if_neg hc2, hfn], ?_⟩
            intro x hx
            rcases List.mem_cons.mp hx with rfl | hx2
            · exact hl
            · exact hwf2 x hx2
          · right
            simp only [findNext, hst]
            rw [if_neg hc1, if_neg hc2, hfn]

/-- The bounded stitching loop never raises on well-formed lines. -/
theorem pathLoop_ok (fuel : ℕ) (pts : List Point3) (rem : List Entity)
    (h : ∀ l ∈ rem, lineOk l = true) :
    ∃ out, pathLoop fuel pts rem = .ok out := by
  induction fuel generalizing pts rem with
  | zero => exact ⟨(pts, rem), rfl⟩
  | succ f ih =>
      rcases findNext_ok (pts.getLastD default) rem h with ⟨q, rem2, hfn, hwf2⟩ | hfn
      · rw [pathLoop, hfn]
        exact ih _ _ hwf2
      · rw [pathLoop, hfn]
        exact ⟨(pts, rem), rfl⟩

/-- A well-formed repair run produces the non-line entities followed by
one closed polyline over the stitched path. -/
theorem fix_open_contour_some (msp : List Entity)
    (hwf : ∀ e ∈ get_flattend_entities (some msp), isLineE e = true → lineOk e = true)
    (hlines : ((get_flattend_entities (some msp)).filter isLineE).isEmpty = false) :
    ∃ pts, fix_open_contour msp =
      some (msp.filter (fun e => !isLineE e) ++ [mkLwEnt pts], pts) := by
  cases hl : (get_flattend_entities (some msp)).filter isLineE with
  | nil => rw [hl] at hlines; cases hlines
  | cons l0 rest =>
      have hlwf : ∀ x ∈ l0 :: rest, lineOk x = true := by
        rw [← hl]
        intro x hx
        exact hwf x (List.mem_of_mem_filter hx) (List.of_mem_filter hx)
      have hl0 := hlwf l0 (by simp)
      obtain ⟨s, t, hst⟩ : ∃ s t, lineEndpoints l0 = .ok (s, t) := by
        cases hle : lineEndpoints l0 with
        | ok st => obtain ⟨s0, t0⟩ := st; exact ⟨s0, t0, rfl⟩
        | error er => rw [lineOk, hle] at hl0; simp [exOk] at hl0
      obtain ⟨out, hpl⟩ := pathLoop_ok (rest.length * 2) [s, t] rest
        (fun x hx => hlwf x (by simp [hx]))
      obtain ⟨pp, rr⟩ := out
      refine ⟨pp, ?_⟩
      simp only [fix_open_contour, hl, hst, hpl]

/-- Flattening distributes over concatenation. -/
theorem flattenAll_append (a b : List Entity) :
    flattenAll (a ++ b) = flattenAll a ++ flattenAll b := by
  induction a with
  | nil => rfl
  | cons e rest ih => rw [List.cons_append, flattenAll, flattenAll, ih, List.append_assoc]

/-- A set without lines contributes no endpoints. -/
theorem cgEps_no_lines (tolerance : ℚ) (l : List Entity)
    (h : ∀ e ∈ l, isLineE e = false) : cgEps tolerance l = [] := by
  induction l with
  | nil => rfl
  | cons e rest ih =>
      rw [cgEps, h e (by simp)]
      simp only [Bool.false_eq_true, if_false, List.nil_append]
      exact ih (fun x hx => h x (by simp [hx]))

/-- C6, counterexample: a document whose single-segment chain lives
inside a block reference is "repaired", yet the re-checked result still
reports two dangling points — the deletion removes only model-space
lines while the checker re-flattens the block. -/
theorem fix_roundtrip_cex :
    (fix_open_contour c6msp).isSome = true ∧
    (check_closed_geometry (some (fixResultMsp c6msp)) TOLERANCIA_GEOMETRIA).status = .erro ∧
    (check_closed_geometry (some (fixResultMsp c6msp)) TOLERANCIA_GEOMETRIA).ptData.length = 2 := by
  exact ⟨by decide, by decide, by decide⟩

/-- C6 (amended): when the document's lines are all top-level (its block
references contain no Line entities), the repaired document re-flattened
and re-checked by the Closed-Contour Verifier reports no dangling
points. -/
theorem fix_roundtrip (msp : List Entity)
    (hwf : ∀ e ∈ get_flattend_entities (some msp), isLineE e = true → lineOk e = true)
    (hlines : ((get_flattend_entities (some msp)).filter isLineE).isEmpty = false)
    (hnoblock : ((get_flattend_entities (some (msp.filter (fun e => !isLineE e)))).filter
      isLineE).isEmpty = true) :
    (fix_open_contour msp).isSome = true
    ∧ (check_closed_geometry (some (fixResultMsp msp)) TOLERANCIA_GEOMETRIA).status = .ok
    ∧ (check_closed_geometry (some (fixResultMsp msp)) TOLERANCIA_GEOMETRIA).ptData = [] := by
  obtain ⟨pts, hfix⟩ := fix_open_contour_some msp hwf hlines
  have hres : fixResultMsp msp = msp.filter (fun e => !isLineE e) ++ [mkLwEnt pts] := by
    rw [fixResultMsp, hfix]
  have hflat : get_flattend_entities (some (fixResultMsp msp)) =
      get_flattend_entities (some (msp.filter (fun e => !isLineE e))) ++ [mkLwEnt pts] := by
    show flattenAll (fixResultMsp msp) = flattenAll (msp.filter (fun e => !isLineE e)) ++ [mkLwEnt pts]
    rw [hres, flattenAll_append]
    rfl
  have hnolines : ∀ e ∈ (get_flattend_entities (some (fixResultMsp msp))).filter
      (fun e => isLineE e || isLwE e), isLineE e = false := by
    intro e he
    have hem := List.mem_of_mem_filter he
    rw [hflat] at hem
    rcases List.mem_append.mp hem with h2 | h2
    · rw [List.isEmpty_iff] at hnoblock
      by_contra hline
      simp only [Bool.not_eq_false] at hline
      have : e ∈ (get_flattend_entities (some (msp.filter (fun e => !isLineE e)))).filter
          isLineE := List.mem_filter.mpr ⟨h2, hline⟩
      rw [hnoblock] at this
      cases this
    · have : e = mkLwEnt pts := List.mem_singleton.mp h2
      subst this
      rfl
  have hwf3 : ∀ e ∈ (get_flattend_entities (some (fixResultMsp msp))).filter
      (fun e => isLineE e || isLwE e), isLineE e = true → lineOk e = true := by
    intro e he hline
    rw [hnolines e he] at hline
    cases hline
  have hne3 : ((get_flattend_entities (some (fixResultMsp msp))).filter
      (fun e => isLineE e || isLwE e)).isEmpty = false := by
    have hmem : mkLwEnt pts ∈ (get_flattend_entities (some (fixResultMsp msp))).filter
        (fun e => isLineE e || isLwE e) := by
      apply List.mem_filter.mpr
      refine ⟨?_, by rfl⟩
      rw [hflat]
      exact List.mem_append.mpr (Or.inr (by simp))
    cases hfl : (get_flattend_entities (some (fixResultMsp msp))).filter
        (fun e => isLineE e || isLwE e) with
    | nil => rw [hfl] at hmem; cases hmem
    | cons a l => rfl
  have heps : cgEps TOLERANCIA_GEOMETRIA ((get_flattend_entities (some (fixResultMsp msp))).filter
      (fun e => isLineE e || isLwE e)) = [] := cgEps_no_lines _ _ hnolines
  rw [check_closed_geometry_eq _ _ hwf3 hne3, heps]
  refine ⟨by rw [hfix]; rfl, by simp [oddKeysOf, firstDedup], by simp [oddKeysOf, firstDedup, CheckResult.ptData]⟩

/-- C6 witness: a two-segment open chain at top level repairs to a
document that re-checks clean. -/
theorem fix_roundtrip_witness :
    (fix_open_contour chain2).isSome = true
    ∧ (check_closed_geometry (some (fixResultMsp chain2)) TOLERANCIA_GEOMETRIA).status = .ok
    ∧ (check_closed_geometry (some (fixResultMsp chain2)) TOLERANCIA_GEOMETRIA).ptData = [] :=
  fix_roundtrip chain2 (by decide) (by decide) (by decide)

/-- The two derived file names differ. -/
theorem dxfName_ne_fixedName (stem : String) : dxfName stem ≠ fixedName stem := by
  intro h
  have hlen := congrArg String.length h
  rw [dxfName, fixedName, String.length_append, String.length_append] at hlen
  have h4 : ".dxf".length = 4 := by decide
  have h14 : "_corrigido.dxf".length = 14 := by decide
  omega

/-- LwPolylines survive the line filter. -/
theorem countP_lw_filter (msp : List Entity) :
    (msp.filter (fun e => !isLineE e)).countP isLwE = msp.countP isLwE := by
  rw [List.countP_filter]
  have hfe : (fun a => isLwE a && !isLineE a) = isLwE := by
    funext a
    cases a with
    | geo g => cases hk : g.kind <;> simp [isLwE, isLineE, hk]
    | insert i l v c => rfl
  rw [hfe]

/-- C9: a repair run deletes every model-space Line entity, appends
exactly one closed LwPolyline built from the accumulated path points,
persists the result under the stem with the fixed suffix `_corrigido`,
and leaves the original stored document unchanged. -/
theorem fix_frame (st : FileStore) (stem : String) (msp : List Entity)
    (hload : storeGet st (dxfName stem) = some msp)
    (hwf : ∀ e ∈ get_flattend_entities (some msp), isLineE e = true → lineOk e = true)
    (hlines : ((get_flattend_entities (some msp)).filter isLineE).isEmpty = false) :
    fix_open_contour msp = some (fixResultMsp msp, fixResultPts msp)
    ∧ fixResultMsp msp = msp.filter (fun e => !isLineE e) ++ [mkLwEnt (fixResultPts msp)]
    ∧ (fixResultMsp msp).filter isLineE = []
    ∧ (fixResultMsp msp).countP isLwE = msp.countP isLwE + 1
    ∧ storeGet (run_fix_open_contour st stem) (fixedName stem) = some (fixResultMsp msp)
    ∧ storeGet (run_fix_open_contour st stem) (dxfName stem) = some msp
    ∧ dxfName stem ≠ fixedName stem := by
  obtain ⟨pts, hfix⟩ := fix_open_contour_some msp hwf hlines
  have hm : fixResultMsp msp = msp.filter (fun e => !isLineE e) ++ [mkLwEnt pts] := by
    rw [fixResultMsp, hfix]
  have hp : fixResultPts msp = pts := by
    rw [fixResultPts, hfix]
  have hrun : run_fix_open_contour st stem =
      storeSet st (fixedName stem) (fixResultMsp msp) := by
    simp only [run_fix_open_contour, hload, hfix, hm]
  refine ⟨by rw [hfix, hm, hp], by rw [hm, hp], ?_, ?_, ?_, ?_, dxfName_ne_fixedName stem⟩
  · rw [hm, List.filter_append]
    have h1 : (msp.filter (fun e => !isLineE e)).filter isLineE = [] := by
      apply List.filter_eq_nil_iff.mpr
      intro a ha hla
      have := List.of_mem_filter ha
      rw [hla] at this
      cases this
    have h2 : ([mkLwEnt pts]).filter isLineE = [] := rfl
    rw [h1, h2]
    rfl
  · rw [hm, List.countP_append, countP_lw_filter]
    rfl
  · rw [hrun, storeSet, storeGet]
    simp
  · rw [hrun, storeSet, storeGet]
    rw [if_neg ?hne]
    · exact hload
    · simp only [beq_iff_eq]
      exact fun h => dxfName_ne_fixedName stem h.symm

/-- C9 witness: repairing the stored two-line chain drawing. -/
theorem fix_frame_witness :
    fix_open_contour chain2 = some (fixResultMsp chain2, fixResultPts chain2)
    ∧ fixResultMsp chain2 = chain2.filter (fun e => !isLineE e) ++ [mkLwEnt (fixResultPts chain2)]
    ∧ (fixResultMsp chain2).filter isLineE = []
    ∧ (fixResultMsp chain2).countP isLwE = chain2.countP isLwE + 1
    ∧ storeGet (run_fix_open_contour c9store "peca") (fixedName "peca") = some (fixResultMsp chain2)
    ∧ storeGet (run_fix_open_contour c9store "peca") (dxfName "peca") = some chain2
    ∧ dxfName "peca" ≠ fixedName "peca" :=
  fix_frame c9store "peca" chain2 rfl (by decide) (by decide)

/-- Marking an index keeps the length. -/
theorem setMatched_length (ps : List RelPos) (k : ℕ) :
    (setMatched ps k).length = ps.length := by
  induction ps generalizing k with
  | nil => rfl
  | cons p rest ih =>
      cases k with
      | zero => rfl
      | succ k2 => simp [setMatched, ih]

/-- Marking an index leaves the other entries untouched. -/
theorem getD_setMatched_ne (ps : List RelPos) (k j : ℕ) (h : j ≠ k) :
    (setMatched ps k).getD j default = ps.getD j default := by
  induction ps generalizing k j with
  | nil => rfl
  | cons p rest ih =>
      cases k with
      | zero =>
          cases j with
          | zero => exact absurd rfl h
          | succ j2 => rfl
      | succ k2 =>
          cases j with
          | zero => rfl
          | succ j2 => simpa [setMatched] using ih k2 j2 (by omega)

/-- Marking an out-of-range index is a no-op. -/
theorem setMatched_ge (ps : List RelPos) (k : ℕ) (h : ps.length ≤ k) :
    setMatched ps k = ps := by
  induction ps generalizing k with
  | nil => rfl
  | cons p rest ih =>
      cases k with
      | zero => simp at h
      | succ k2 => simpa [setMatched] using ih k2 (by simpa using h)

/-- Marking an in-range index sets exactly its flag. -/
theorem getD_setMatched_self (ps : List RelPos) (k : ℕ) (h : k < ps.length) :
    (setMatched ps k).getD k default = { ps.getD k default with matched := true } := by
  induction ps generalizing k with
  | nil => simp at h
  | cons p rest ih =>
      cases k with
      | zero => rfl
      | succ k2 => simpa [setMatched] using ih k2 (by simpa using h)

/-- A matched flag survives marking. -/
theorem setMatched_mono (ps : List RelPos) (k j : ℕ)
    (h : (ps.getD j default).matched = true) :
    ((setMatched ps k).getD j default).matched = true := by
  by_cases hjk : j = k
  · subst hjk
    by_cases hlt : j < ps.length
    · rw [getD_setMatched_self ps j hlt]
    · rw [setMatched_ge ps j (by omega)]
      exact h
  · rw [getD_setMatched_ne ps k j hjk]
    exact h

/-- The symmetric-pair test is symmetric. -/
theorem sympair_comm (tolerance : ℚ) (p q : RelPos) :
    sympair tolerance p q = sympair tolerance q p := by
  have hx : padd p.px q.px = padd q.px p.px := by
    cases hp : p.px <;> cases hq : q.px <;> simp [padd, add_comm]
  have hy : padd p.py q.py = padd q.py p.py := by
    cases hp : p.py <;> cases hq : q.py <;> simp [padd, add_comm]
  rw [sympair, sympair, hx, hy]

/-- A failed inner scan means no admissible partner anywhere. -/
theorem findPartnerAux_none (tolerance : ℚ) (p1 : RelPos) (i : ℕ) :
    ∀ (l : List RelPos) (j0 : ℕ), findPartnerAux tolerance p1 i l j0 = none →
    ∀ d : ℕ, d < l.length → j0 + d ≠ i → (l.getD d default).matched = false →
    sympair tolerance p1 (l.getD d default) = false := by
  intro l
  induction l with
  | nil => intro j0 _ d hd; simp at hd
  | cons p2 rest ih =>
      intro j0 hnone d hd hne hunm
      rw [findPartnerAux] at hnone
      by_cases hcond : (j0 != i && !p2.matched && sympair tolerance p1 p2) = true
      · rw [if_pos hcond] at hnone; cases hnone
      · rw [if_neg hcond] at hnone
        cases d with
        | zero =>
            simp only [List.getD_cons_zero] at hunm ⊢
            have hji : j0 ≠ i := by omega
            cases hsp : sympair tolerance p1 p2 with
            | false => rfl
            | true => exact absurd (by simp [hji, hunm, hsp]) hcond
        | succ d2 =>
            simp only [List.getD_cons_succ] at hunm ⊢
            exact ih (j0 + 1) hnone d2 (by simpa using hd) (by omega) hunm

/-- A successful inner scan returns an admissible partner index. -/
theorem findPartnerAux_some (tolerance : ℚ) (p1 : RelPos) (i : ℕ) :
    ∀ (l : List RelPos) (j0 j : ℕ), findPartnerAux tolerance p1 i l j0 = some j →
    j0 ≤ j ∧ j - j0 < l.length ∧ j ≠ i ∧
    (l.getD (j - j0) default).matched = false ∧
    sympair tolerance p1 (l.getD (j - j0) default) = true := by
  intro l
  induction l with
  | nil => intro j0 j h; cases h
  | cons p2 rest ih =>
      intro j0 j hsome
      rw [findPartnerAux] at hsome
      by_cases hcond : (j0 != i && !p2.matched && sympair tolerance p1 p2) = true
      · rw [if_pos hcond] at hsome
        cases hsome
        simp only [Bool.and_eq_true, bne_iff_ne, Bool.not_eq_true'] at hcond
        simp only [Nat.sub_self, List.getD_cons_zero]
        exact ⟨le_refl _, by simp, hcond.1.1, hcond.1.2, hcond.2⟩
      · rw [if_neg hcond] at hsome
        obtain ⟨h1, h2, h3, h4, h5⟩ := ih (j0 + 1) j hsome
        have hd : j - j0 = (j - (j0 + 1)) + 1 := by omega
        refine ⟨by omega, by simp; omega, h3, ?_, ?_⟩
        · rw [hd]; simpa using h4
        · rw [hd]; simpa using h5

/-- Splitting a drop at an in-range index into head and tail. -/
theorem drop_head_getD (l : List RelPos) (i : ℕ) (h : i < l.length) :
    l.drop i = l.getD i default :: l.drop (i + 1) := by
  rw [List.drop_eq_getElem_cons h]
  congr 1
  symm
  simp [List.getD_eq_getElem?_getD, List.getElem?_eq_getElem h]

/-- Characterization of the greedy pairing outer loop over the index
range `range' i m`, under the invariant that every visited unmatched
position pairs with nobody: lengths are preserved, visited entries are
frozen, matched flags are monotone, and the asymmetric list is exactly
the unmatched, off-center remainder of the final state. -/
theorem symFold_char_aux (tolerance : ℚ) (m : ℕ) :
    ∀ (i : ℕ) (ps : List RelPos) (asym : List Entity) (psF : List RelPos) (asymF : List Entity),
    i + m = ps.length → Pinv tolerance i ps →
    symFold tolerance (List.range' i m) (ps, asym) = (psF, asymF) →
    psF.length = ps.length ∧
    (∀ j, j < i → psF.getD j default = ps.getD j default) ∧
    (∀ j, (ps.getD j default).matched = true → (psF.getD j default).matched = true) ∧
    asymF = asym ++ ((psF.drop i).filter
      (fun p => !p.matched && !atCenter tolerance p)).map (fun p => p.ent) := by
  induction m with
  | zero =>
      intro i ps asym psF asymF hlen _ hfold
      have hnil : symFold tolerance (List.range' i 0) (ps, asym) = (ps, asym) := rfl
      rw [hnil] at hfold
      injection hfold with hq1 hq2
      subst hq1
      subst hq2
      refine ⟨rfl, fun j _ => rfl, fun j h => h, ?_⟩
      have hdrop : ps.drop i = [] := by
        rw [show i = ps.length by omega]
        exact List.drop_length ps
      rw [hdrop]
      simp
  | succ m2 ih =>
      intro i ps asym psF asymF hlen hinv hfold
      have hrange : List.range' i (m2 + 1) = i :: List.range' (i + 1) m2 := rfl
      rw [hrange] at hfold
      have hcons : symFold tolerance (i :: List.range' (i + 1) m2) (ps, asym)
          = symFold tolerance (List.range' (i + 1) m2) (symStep tolerance i (ps, asym)) := rfl
      rw [hcons] at hfold
      have hi : i < ps.length := by omega
      cases hm1 : (ps.getD i default).matched with
      | true =>
          have hss : symStep tolerance i (ps, asym) = (ps, asym) := by
            simp only [symStep]
            rw [hm1, if_pos rfl]
          rw [hss] at hfold
          have hinv2 : Pinv tolerance (i + 1) ps := by
            intro j m' hj hjl hml hne hju hmu
            rcases Nat.lt_succ_iff_lt_or_eq.mp hj with hj2 | hj2
            · exact hinv j m' hj2 hjl hml hne hju hmu
            · subst hj2
              rw [hm1] at hju
              cases hju
          obtain ⟨h1, h2, h3, h4⟩ := ih (i + 1) ps asym psF asymF (by omega) hinv2 hfold
          refine ⟨h1, fun j hj => h2 j (by omega), h3, ?_⟩
          have hiF : i < psF.length := by omega
          rw [drop_head_getD psF i hiF]
          have hmF : (psF.getD i default).matched = true := h3 i hm1
          have hpred : (!(psF.getD i default).matched && !atCenter tolerance (psF.getD i default)) = false := by
            rw [hmF]
            rfl
          simp only [List.filter_cons, hpred, Bool.false_eq_true, if_false]
          exact h4
      | false =>
          cases hfp : findPartnerAux tolerance (ps.getD i default) i ps 0 with
          | some j0 =>
              have hss : symStep tolerance i (ps, asym) = (setMatched (setMatched ps i) j0, asym) := by
                simp only [symStep]
                rw [hm1, if_neg Bool.false_ne_true, hfp]
              rw [hss] at hfold
              obtain ⟨-, hj0lt, hj0ne, hj0unm, hj0sym⟩ :=
                findPartnerAux_some tolerance (ps.getD i default) i ps 0 j0 hfp
              rw [Nat.sub_zero] at hj0lt hj0unm hj0sym
              have hj0gt : i < j0 := by
                rcases Nat.lt_trichotomy i j0 with h | h | h
                · exact h
                · exact absurd h.symm hj0ne
                · have hcontra := hinv j0 i h hj0lt hi (fun he => hj0ne he.symm) hj0unm hm1
                  rw [sympair_comm, hj0sym] at hcontra
                  cases hcontra
              have hlen2 : (setMatched (setMatched ps i) j0).length = ps.length := by
                rw [setMatched_length, setMatched_length]
              have hne2 : ∀ j, j ≠ i → j ≠ j0 →
                  (setMatched (setMatched ps i) j0).getD j default = ps.getD j default := by
                intro j hji hjj0
                rw [getD_setMatched_ne _ j0 j hjj0, getD_setMatched_ne _ i j hji]
              have hmi : ((setMatched (setMatched ps i) j0).getD i default).matched = true := by
                rw [getD_setMatched_ne _ j0 i (fun he => hj0ne he.symm),
                  getD_setMatched_self ps i hi]
              have hmj0 : ((setMatched (setMatched ps i) j0).getD j0 default).matched = true := by
                rw [getD_setMatched_self _ j0 (by rw [setMatched_length]; exact hj0lt)]
              have hinv2 : Pinv tolerance (i + 1) (setMatched (setMatched ps i) j0) := by
                intro j m' hj hjl hml hne hju hmu
                have hji2 : j ≠ i := by
                  intro he
                  subst he
                  rw [hmi] at hju
                  cases hju
                have hjj0 : j ≠ j0 := by omega
                have hmi2 : m' ≠ i := by
                  intro he
                  subst he
                  rw [hmi] at hmu
                  cases hmu
                have hmj02 : m' ≠ j0 := by
                  intro he
                  subst he
                  rw [hmj0] at hmu
                  cases hmu
                rw [hne2 j hji2 hjj0] at hju ⊢
                rw [hne2 m' hmi2 hmj02] at hmu ⊢
                rw [hlen2] at hjl hml
                exact hinv j m' (by omega) hjl hml hne hju hmu
              obtain ⟨h1, h2, h3, h4⟩ := ih (i + 1) (setMatched (setMatched ps i) j0) asym psF asymF
                (by rw [hlen2]; omega) hinv2 hfold
              refine ⟨by rw [h1, hlen2], ?_, ?_, ?_⟩
              · intro j hj
                rw [h2 j (by omega), hne2 j (by omega) (by omega)]
              · intro j hj
                exact h3 j (setMatched_mono _ j0 j (setMatched_mono ps i j hj))
              · have hiF : i < psF.length := by rw [h1, hlen2]; omega
                rw [drop_head_getD psF i hiF]
                have hmF : (psF.getD i default).matched = true := h3 i hmi
                have hpred : (!(psF.getD i default).matched && !atCenter tolerance (psF.getD i default)) = false := by
                  rw [hmF]
                  rfl
                simp only [List.filter_cons, hpred, Bool.false_eq_true, if_false]
                exact h4
          | none =>
              have hnone := findPartnerAux_none tolerance (ps.getD i default) i ps 0 hfp
              have hinv2 : Pinv tolerance (i + 1) ps := by
                intro j m' hj hjl hml hne hju hmu
                rcases Nat.lt_succ_iff_lt_or_eq.mp hj with hj2 | hj2
                · exact hinv j m' hj2 hjl hml hne hju hmu
                · subst hj2
                  exact hnone m' hml (by omega) hmu
              cases hac : atCenter tolerance (ps.getD i default) with
              | true =>
                  have hss : symStep tolerance i (ps, asym) = (ps, asym) := by
                    simp only [symStep]
                    rw [hm1, if_neg Bool.false_ne_true, hfp, hac, if_pos rfl]
                  rw [hss] at hfold
                  obtain ⟨h1, h2, h3, h4⟩ := ih (i + 1) ps asym psF asymF (by omega) hinv2 hfold
                  refine ⟨h1, fun j hj => h2 j (by omega), h3, ?_⟩
                  have hiF : i < psF.length := by omega
                  rw [drop_head_getD psF i hiF]
                  have hfr : psF.getD i default = ps.getD i default := h2 i (by omega)
                  have hpred : (!(psF.getD i default).matched && !atCenter tolerance (psF.getD i default)) = false := by
                    rw [hfr, hac]
                    simp
                  simp only [List.filter_cons, hpred, Bool.false_eq_true, if_false]
                  exact h4
              | false =>
                  have hss : symStep tolerance i (ps, asym)
                      = (ps, asym ++ [(ps.getD i default).ent]) := by
                    simp only [symStep]
                    rw [hm1, if_neg Bool.false_ne_true, hfp, hac, if_neg Bool.false_ne_true]
                  rw [hss] at hfold
                  obtain ⟨h1, h2, h3, h4⟩ := ih (i + 1) ps (asym ++ [(ps.getD i default).ent])
                    psF asymF (by omega) hinv2 hfold
                  refine ⟨h1, fun j hj => h2 j (by omega), h3, ?_⟩
                  have hiF : i < psF.length := by omega
                  rw [drop_head_getD psF i hiF]
                  have hfr : psF.getD i default = ps.getD i default := h2 i (by omega)
                  have hpred : (!(psF.getD i default).matched && !atCenter tolerance (psF.getD i default)) = true := by
                    rw [hfr, hm1, hac]
                    rfl
                  simp only [List.filter_cons, hpred, if_pos]
                  rw [h4, hfr]
                  simp

/-- C5: the Hole Symmetry Checker pairs circles greedily in original
order.  (i) The entities reported under the distinct `furoSemSimetria`
status are exactly those left unmatched and not on-center in the final
pairing state.  (ii) Under the loop invariant, a successful partner scan
always returns a strictly later index, so the scan over all indices is
effectively a scan over subsequent unmatched circles only.  (iii) Four
holes at `(±5, ±5)` yield Ok.  (iv) Five holes with one unpaired at
`(3, 7)` yield `furoSemSimetria` whose data contains exactly that
hole. -/
theorem hole_symmetry_greedy :
    (∀ (tolerance : ℚ) (ps psF : List RelPos) (asymF : List Entity),
      symFold tolerance (List.range ps.length) (ps, []) = (psF, asymF) →
      asymF = (psF.filter (fun p => !p.matched && !atCenter tolerance p)).map (fun p => p.ent))
    ∧ (∀ (tolerance : ℚ) (ps : List RelPos) (i j : ℕ), Pinv tolerance i ps →
        i < ps.length → (ps.getD i default).matched = false →
        findPartnerAux tolerance (ps.getD i default) i ps 0 = some j → i < j)
    ∧ (check_hole_symmetry (some sym4) (1/100)).toOption.map
        (fun r => r.status) = some .ok
    ∧ (check_hole_symmetry (some sym5) (1/100)).toOption.map
        (fun r => (r.status, r.dataIds)) = some (.furoSemSimetria, [5]) := by
  refine ⟨?_, ?_, ?_, ?_⟩
  · intro tolerance ps psF asymF hfold
    rw [List.range_eq_range'] at hfold
    obtain ⟨-, -, -, h4⟩ := symFold_char_aux tolerance ps.length 0 ps [] psF asymF
      (by omega) (fun j m hj _ _ _ _ _ => absurd hj (Nat.not_lt_zero j)) hfold
    simpa using h4
  · intro tolerance ps i j hinv hi hm hfp
    obtain ⟨-, hlt, hne, hunm, hsym⟩ :=
      findPartnerAux_some tolerance (ps.getD i default) i ps 0 j hfp
    rw [Nat.sub_zero] at hlt hunm hsym
    rcases Nat.lt_trichotomy i j with h | h | h
    · exact h
    · exact absurd h.symm hne
    · have hc := hinv j i h hlt hi (fun he => hne he.symm) hunm hm
      rw [sympair_comm, hsym] at hc
      cases hc
  · decide
  · decide

/-- Witness for C5: a single off-center unmatched hole is reported by
the characterization (i), and in a point-symmetric two-hole state the
partner found for index 0 is the strictly later index 1, discharging the
hypotheses of (ii) concretely. -/
theorem hole_symmetry_greedy_witness :
    (([mkCircle 1 ⟨3, 7, 0⟩ 1] : List Entity) =
      (([⟨.fin 3, .fin 7, mkCircle 1 ⟨3, 7, 0⟩ 1, false⟩] : List RelPos).filter
        (fun p => !p.matched && !atCenter (1/100) p)).map (fun p => p.ent))
    ∧ (0 : ℕ) < 1 :=
  ⟨hole_symmetry_greedy.1 (1/100) [⟨.fin 3, .fin 7, mkCircle 1 ⟨3, 7, 0⟩ 1, false⟩]
      [⟨.fin 3, .fin 7, mkCircle 1 ⟨3, 7, 0⟩ 1, false⟩] [mkCircle 1 ⟨3, 7, 0⟩ 1] rfl,
    hole_symmetry_greedy.2.1 (1/100)
      [⟨.fin 5, .fin 5, mkCircle 1 ⟨5, 5, 0⟩ 1, false⟩,
       ⟨.fin (-5), .fin (-5), mkCircle 2 ⟨-5, -5, 0⟩ 1, false⟩] 0 1
      (fun j m hj _ _ _ _ _ => absurd hj (Nat.not_lt_zero j))
      (by decide) (by decide) (by decide)⟩
